import Mathlib

/-!
Verification of the ShellHack2025 "ops-mesh" repository against its
natural-language specification.

The frontend TypeScript under `src/ops-mesh-frontend` (validation helpers,
dashboard statistics transformation, the client-side agent-network
simulation) is embedded directly from the source.  The A2A coordination
layer (Discovery Service, Task Protocol Engine, Workflow Orchestrator,
Queue Manager) is described by the repository's documentation and the
specification but its implementation is not among the provided source
files, so those components are modelled from the spec, as marked on each
definition.
-/

namespace OpsMesh

/-! ## Frontend validation (`utils/validation.ts`) -/

/-- Executable embedding of JavaScript `String.prototype.trim`: drop
whitespace from both ends of the character sequence. -/
def jsTrim (s : String) : String :=
  ⟨((s.data.dropWhile Char.isWhitespace).reverse.dropWhile
      Char.isWhitespace).reverse⟩

/-- Embedding of `validateAppointmentInput` from `utils/validation.ts`:
returns a prompt string when the confirmation code and/or last name is
blank after trimming, `none` otherwise. -/
def validateAppointmentInput (code last : String) : Option String :=
  if jsTrim code = "" && jsTrim last = "" then
    some "Please enter your confirmation code and last name."
  else if jsTrim code = "" then
    some "Please enter your confirmation code."
  else if jsTrim last = "" then
    some "Please enter your last name."
  else
    none

/-- Embedding of `decideNextAfterInvalid` from `utils/validation.ts`. -/
def decideNextAfterInvalid (attempts : Nat) : String :=
  if attempts ≥ 2 then "walkin" else "retry"

/-! ## Dashboard statistics (`lib/services/dashboardService.ts`) -/

/-- Shape of the backend `/dashboard/stats` response consumed by
`DashboardService.getDashboardStats` (counts are natural numbers). -/
structure BackendDashboardStats where
  success : Bool
  total_patients : Nat
  patients_served : Nat
  queue_waiting : Nat
  queue_in_progress : Nat
  average_wait_time : ℚ
  deriving Repr, DecidableEq

/-- The queue-stats block of the frontend `DashboardStats` record. -/
structure QueueStats where
  total_waiting : Nat
  total_in_progress : Nat
  total_called : Nat
  walk_ins_waiting : Nat
  appointments_waiting : Nat
  urgent_waiting : Nat
  high_waiting : Nat
  deriving Repr, DecidableEq

/-- The appointment-stats block of the frontend `DashboardStats` record. -/
structure AppointmentStats where
  total_today : Nat
  checked_in_today : Nat
  completed_today : Nat
  check_in_rate : ℤ
  deriving Repr, DecidableEq

/-- The frontend `DashboardStats` record built by `getDashboardStats`. -/
structure DashboardStats where
  queue_stats : QueueStats
  appointment_stats : AppointmentStats
  deriving Repr, DecidableEq

/-- `Math.floor (n * f)` for a natural count `n` and rational factor `f`
(the backend counts are non-negative, so the floor is a natural). -/
def floorScale (n : Nat) (f : ℚ) : Nat := (⌊(n : ℚ) * f⌋).toNat

/-- Embedding of `DashboardService.getDashboardStats` from
`lib/services/dashboardService.ts`: fails when `success` is false,
otherwise fabricates the waiting breakdown from the single
`queue_waiting` total with the hard-coded factors 0.7 / 0.3 / 0.1 / 0.2
and computes `check_in_rate` with `Math.round`, guarding division by
zero. -/
def getDashboardStats (r : BackendDashboardStats) : Except String DashboardStats :=
  if !r.success then
    Except.error "Failed to fetch dashboard stats"
  else
    Except.ok
      { queue_stats :=
          { total_waiting := r.queue_waiting
            total_in_progress := r.queue_in_progress
            total_called := 0
            walk_ins_waiting := floorScale r.queue_waiting (7/10)
            appointments_waiting := floorScale r.queue_waiting (3/10)
            urgent_waiting := floorScale r.queue_waiting (1/10)
            high_waiting := floorScale r.queue_waiting (2/10) }
        appointment_stats :=
          { total_today := r.total_patients
            checked_in_today := r.patients_served
            completed_today := r.patients_served
            check_in_rate :=
              if r.total_patients > 0 then
                round ((r.patients_served : ℚ) / (r.total_patients : ℚ) * 100)
              else 0 } }

/-! ## Dashboard agent-network simulation (`components/ADKAgentNetwork.tsx`) -/

/-- Message direction tags used by the simulated message flows. -/
inductive SimMsgType where
  | request
  | response
  deriving Repr, DecidableEq

/-- One hardcoded workflow message of `simulateWorkflow` (`from`/`to`
fields of the TypeScript object are `msgFrom`/`msgTo` here because `from`
is reserved in Lean). -/
structure SimWorkflowMsg where
  msgFrom : String
  msgTo : String
  message : String
  type : SimMsgType
  deriving Repr, DecidableEq

/-- The status a simulated message flow passes through. -/
inductive SimMsgStatus where
  | sending
  | delivered
  | processing
  | completed
  deriving Repr, DecidableEq

/-- Embedding of the hardcoded `workflow` array inside `simulateWorkflow`
in `components/ADKAgentNetwork.tsx`: the fixed eight-message sequence the
simulation always emits, independent of any backend response or user
input (the function reads no external data). -/
def simulateWorkflowMessages : List SimWorkflowMsg :=
  [ ⟨"orchestrator", "frontdesk", "Register new patient: John Doe", .request⟩,
    ⟨"frontdesk", "orchestrator", "Patient registered successfully (ID: 12345)", .response⟩,
    ⟨"orchestrator", "queue", "Add patient 12345 to queue with priority: medium", .request⟩,
    ⟨"queue", "orchestrator", "Patient added to queue, estimated wait: 15 minutes", .response⟩,
    ⟨"orchestrator", "appointment", "Schedule follow-up appointment for patient 12345", .request⟩,
    ⟨"appointment", "orchestrator", "Appointment scheduled for tomorrow 2:00 PM", .response⟩,
    ⟨"orchestrator", "notification", "Send confirmation to patient 12345", .request⟩,
    ⟨"notification", "orchestrator", "Confirmation sent via SMS and email", .response⟩ ]

/-- The three fixed `setTimeout` delays (in milliseconds) that drive a
simulated message from `sending` to `delivered`, `processing` and
`completed` in `simulateWorkflow`. -/
def simDelaysMs : List Nat := [800, 1200, 1000]

/-- Status of one simulated message `t` milliseconds after its creation,
as produced by the fixed timer chain of `simulateWorkflow` (sending at 0,
delivered after 800 ms, processing after 800+1200 ms, completed after
800+1200+1000 ms). -/
def simStatusAt (t : Nat) : SimMsgStatus :=
  if t < 800 then .sending
  else if t < 800 + 1200 then .delivered
  else if t < 800 + 1200 + 1000 then .processing
  else .completed

/-! ## Discovery Service (modelled from the spec, §4.1) -/

/-- Agent liveness status from the spec's data model. -/
inductive AgentStatus where
  | active
  | busy
  | unreachable
  deriving Repr, DecidableEq

/-- Modelled from the spec: the `AgentDescriptor` record of the Discovery
Service (the A2A backend implementation is not among the provided source
files).  Fields not touched by any claim (`display_name`, capability
schemas, `protocol_version`) are omitted. -/
structure AgentDescriptor where
  agent_id : String
  capabilities : List String
  status : AgentStatus
  last_heartbeat : Nat
  deriving Repr, DecidableEq

/-- The Agent Registry: the current known set of agents. -/
abbrev Registry := List AgentDescriptor

/-- Discovery Service error taxonomy from the spec (§7). -/
inductive DiscoveryError where
  | validationError
  | notRegistered
  deriving Repr, DecidableEq

/-- Whether an agent with the given id is present. -/
def hasAgent (r : Registry) (id : String) : Bool :=
  r.any (fun a => a.agent_id == id)

/-- Modelled from the spec: `deregister(agent_id)` removes the descriptor;
idempotent (no error if already absent). -/
def deregister (r : Registry) (id : String) : Registry :=
  r.filter (fun a => a.agent_id != id)

/-- Modelled from the spec: `register(descriptor)` adds or replaces the
descriptor keyed by `agent_id`; rejects with `ValidationError` if
`capabilities` is empty. -/
def register (r : Registry) (d : AgentDescriptor) : Except DiscoveryError Registry :=
  if d.capabilities.isEmpty then Except.error .validationError
  else Except.ok (d :: deregister r d.agent_id)

/-- Modelled from the spec: `heartbeat(agent_id, status)` updates
`last_heartbeat` and `status`; fails with `NotRegistered` if the agent was
never registered. -/
def heartbeat (r : Registry) (id : String) (st : AgentStatus) (now : Nat) :
    Except DiscoveryError Registry :=
  if hasAgent r id then
    Except.ok (r.map (fun a =>
      if a.agent_id == id then { a with status := st, last_heartbeat := now }
      else a))
  else Except.error .notRegistered

/-- Rank used by the "most idle" ordering: ACTIVE before BUSY before
UNREACHABLE. -/
def statusRank : AgentStatus → Nat
  | .active => 0
  | .busy => 1
  | .unreachable => 2

/-- The "most idle" comparison of the spec: status ACTIVE before BUSY,
then most-recent heartbeat first. -/
def idleLE (a b : AgentDescriptor) : Bool :=
  statusRank a.status < statusRank b.status ||
    (statusRank a.status == statusRank b.status &&
      b.last_heartbeat ≤ a.last_heartbeat)

/-- Modelled from the spec: `find_by_capability(capability_name)` returns
ACTIVE agents only among those declaring the capability, ordered by the
"most idle" key. -/
def find_by_capability (r : Registry) (cap : String) : List AgentDescriptor :=
  (r.filter (fun a =>
    a.capabilities.contains cap && a.status == .active)).mergeSort idleLE

/-! ## Queue Manager (modelled from the spec, §4.4) -/

/-- Queue entry priority from the spec's data model. -/
inductive QPriority where
  | low
  | medium
  | high
  | urgent
  deriving Repr, DecidableEq

/-- Numeric rank of a priority: URGENT above HIGH above MEDIUM above LOW. -/
def priorityRank : QPriority → Nat
  | .low => 0
  | .medium => 1
  | .high => 2
  | .urgent => 3

/-- Queue entry status from the spec's data model. -/
inductive QueueEntryStatus where
  | waiting
  | called
  | in_progress
  | completed
  | cancelled
  deriving Repr, DecidableEq

/-- Queue type (service lane) from the spec's data model. -/
inductive QueueType where
  | walk_in
  | appointment
  | emergency
  deriving Repr, DecidableEq

/-- Modelled from the spec: the `QueueEntry` record of the Queue Manager
(the backend implementation is not among the provided source files).
`estimated_wait` is omitted: no claim touches wait estimation. -/
structure QueueEntry where
  ticket_number : String
  priority : QPriority
  queue_type : QueueType
  status : QueueEntryStatus
  created_at : Nat
  deriving Repr, DecidableEq

/-- Queue Manager error taxonomy from the spec (§4.4, §7). -/
inductive QueueError where
  | duplicateTicket
  | invalidTransition
  | emptyQueue
  deriving Repr, DecidableEq

/-- The Queue Manager's state: the set of admitted entries. -/
structure QueueState where
  entries : List QueueEntry
  deriving Repr, DecidableEq

/-- The empty queue. -/
def emptyQueueState : QueueState := ⟨[]⟩

/-- Modelled from the spec: `enqueue(entry)` fails with `DuplicateTicket`
if the ticket number is already present, otherwise inserts the entry
(estimated-wait recomputation omitted: no claim touches it). -/
def enqueue (s : QueueState) (e : QueueEntry) : Except QueueError QueueState :=
  if s.entries.any (fun x => x.ticket_number == e.ticket_number) then
    Except.error .duplicateTicket
  else
    Except.ok ⟨s.entries ++ [e]⟩

/-- `servedBefore a b`: entry `a` is ranked strictly ahead of `b` by the
composite key (priority descending, then creation time ascending). -/
def servedBefore (a b : QueueEntry) : Bool :=
  priorityRank b.priority < priorityRank a.priority ||
    (priorityRank a.priority == priorityRank b.priority &&
      a.created_at < b.created_at)

/-- The WAITING entries of the given queue type. -/
def waitingOfType (s : QueueState) (qt : QueueType) : List QueueEntry :=
  s.entries.filter (fun e => e.status == .waiting && e.queue_type == qt)

/-- Select the highest-priority, oldest-in-band entry of a list (first in
list order on a full tie). -/
def selectNext : List QueueEntry → Option QueueEntry
  | [] => none
  | e :: rest =>
    match selectNext rest with
    | none => some e
    | some b => if servedBefore b e then some b else some e

/-- Modelled from the spec: `call_next(queue_type)` pops the
highest-priority, oldest-in-band WAITING entry of the given type and
transitions it to CALLED; it fails with `EmptyQueue`, leaving the state
unchanged, if none is present. -/
def call_next (s : QueueState) (qt : QueueType) :
    Except QueueError QueueEntry × QueueState :=
  match selectNext (waitingOfType s qt) with
  | none => (Except.error .emptyQueue, s)
  | some e =>
      (Except.ok e,
        ⟨s.entries.map (fun x =>
          if x.ticket_number == e.ticket_number then { x with status := .called }
          else x)⟩)

/-- Fold a list of `enqueue` calls over the empty queue; a failed
(duplicate-ticket) enqueue leaves the state unchanged. -/
def enqueueAll (es : List QueueEntry) : QueueState :=
  es.foldl (fun s e =>
    match enqueue s e with
    | .ok s' => s'
    | .error _ => s) emptyQueueState

/-- The entries returned by `n` repeated `call_next` calls on one queue
type (stopping at the first `EmptyQueue`). -/
def callSeq (s : QueueState) (qt : QueueType) : Nat → List QueueEntry
  | 0 => []
  | n + 1 =>
    match call_next s qt with
    | (Except.ok e, s') => e :: callSeq s' qt n
    | (Except.error _, _) => []

/-- Generic shape of an `apiClient` response in the frontend services. -/
structure ApiResponse (α : Type) where
  data : Option α
  error : Option String

/-- Embedding of the response handling of `QueueService.callPatient` in
`lib/services/queueService.ts`: an error response is thrown synchronously
to the direct caller (there is no retry path). -/
def callPatientHandle {α : Type} (resp : ApiResponse α) : Except String α :=
  match resp.error with
  | some err => Except.error err
  | none =>
    match resp.data with
    | some d => Except.ok d
    | none => Except.error "Failed to call patient"

/-! ## Task Protocol Engine (modelled from the spec, §4.2) -/

/-- TaskResponse status from the spec's data model. -/
inductive RespStatus where
  | success
  | failure
  | error
  deriving Repr, DecidableEq

/-- Modelled from the spec: an outstanding TaskRequest held by the Task
Protocol Engine, with its correlation id and retry accounting
(sender/recipient/capability/parameters omitted: no claim touches them). -/
structure PendingTask where
  task_id : Nat
  retry_count : Nat
  max_retries : Nat
  deriving Repr, DecidableEq

/-- A resolution delivered to the original caller: the response status,
with the failure reason tag when retries were exhausted. -/
structure Delivered where
  task_id : Nat
  status : RespStatus
  reason : Option String
  deriving Repr, DecidableEq

/-- The Task Protocol Engine state: the correlation-id counter, the
outstanding requests, and the resolutions delivered so far (in order). -/
structure EngineState where
  next_id : Nat
  pending : List PendingTask
  delivered : List Delivered
  deriving Repr, DecidableEq

/-- Events consumed by the engine: `send_task` (which mints a fresh
`task_id` from the counter), an inbound TaskResponse for a correlation
id, and a deadline timeout for a correlation id. -/
inductive EngineEvent where
  | send (max_retries : Nat)
  | response (id : Nat) (st : RespStatus)
  | timeout (id : Nat)
  deriving Repr, DecidableEq

/-- The engine before any task was sent. -/
def initEngine : EngineState := ⟨0, [], []⟩

/-- Correlation ids of the outstanding requests. -/
def pendingIds (s : EngineState) : List Nat :=
  s.pending.map (fun p => p.task_id)

/-- Correlation ids already resolved to the caller. -/
def deliveredIds (s : EngineState) : List Nat :=
  s.delivered.map (fun d => d.task_id)

/-- The state after resolving correlation id `id` with delivery `d`:
the id leaves the outstanding set and the delivery is appended. -/
def resolvedState (s : EngineState) (id : Nat) (d : Delivered) : EngineState :=
  { s with
    pending := s.pending.filter (fun p => p.task_id != id)
    delivered := s.delivered ++ [d] }

/-- Modelled from the spec: one step of the Task Protocol Engine.
`send` creates a TaskRequest under the next correlation id; a response
for an outstanding id resolves it (first response wins) while a response
for an unknown or already-resolved id is dropped; a timeout resends the
original request (same `task_id`, incremented `retry_count`) while
retries remain and otherwise delivers the final FAILURE tagged
`exhausted_retries`. -/
def engStep (s : EngineState) : EngineEvent → EngineState
  | .send mr =>
      { next_id := s.next_id + 1
        pending := s.pending ++ [⟨s.next_id, 0, mr⟩]
        delivered := s.delivered }
  | .response id st =>
      if s.pending.any (fun p => p.task_id == id) then
        resolvedState s id ⟨id, st, none⟩
      else s
  | .timeout id =>
      match s.pending.find? (fun p => p.task_id == id) with
      | none => s
      | some t =>
          if t.retry_count < t.max_retries then
            { s with
              pending := s.pending.map (fun p =>
                if p.task_id == id then { p with retry_count := p.retry_count + 1 }
                else p) }
          else
            resolvedState s id ⟨id, .failure, some "exhausted_retries"⟩

/-- Run the engine from a given state over a list of events. -/
def runEngineFrom (s : EngineState) (es : List EngineEvent) : EngineState :=
  es.foldl engStep s

/-- Run the engine from the initial state over a list of events. -/
def runEngine (es : List EngineEvent) : EngineState :=
  runEngineFrom initEngine es

/-- How many resolutions have been delivered for a correlation id. -/
def countDelivered (s : EngineState) (id : Nat) : Nat :=
  (s.delivered.filter (fun d => d.task_id == id)).length

/-- The engine's correlation invariant: outstanding ids are distinct,
delivered ids are distinct, no id is both outstanding and delivered, and
the ids ever minted (those below the counter) are exactly the outstanding
or delivered ones. -/
def EngineInv (s : EngineState) : Prop :=
  (pendingIds s).Nodup ∧
  (deliveredIds s).Nodup ∧
  (∀ id, ¬(id ∈ pendingIds s ∧ id ∈ deliveredIds s)) ∧
  (∀ id, (id ∈ pendingIds s ∨ id ∈ deliveredIds s) ↔ id < s.next_id)

/-! ## Workflow Orchestrator (modelled from the spec, §4.3) -/

/-- Per-step state of a workflow instance, from the spec's data model. -/
inductive StepState where
  | pending
  | running
  | completed
  | failed
  | skipped
  deriving Repr, DecidableEq

/-- Overall status of a workflow instance, from the spec's data model. -/
inductive OverallStatus where
  | running
  | completed
  | failed
  | partially_completed
  deriving Repr, DecidableEq

/-- Modelled from the spec: a `WorkflowStep` of a workflow definition
(the orchestrator implementation is not among the provided source files).
Capability binding, target selector and timeout are omitted: no claim
touches them. -/
structure WorkflowStep where
  step_id : Nat
  depends_on : List Nat
  required : Bool
  deriving Repr, DecidableEq

/-- Modelled from the spec: a `WorkflowInstance`: its definition's steps,
the per-step states and the overall status. -/
structure WorkflowInstance where
  steps : List WorkflowStep
  step_states : List (Nat × StepState)
  overall_status : OverallStatus
  deriving Repr, DecidableEq

/-- Whether an overall status is terminal. -/
def isTerminal : OverallStatus → Bool
  | .running => false
  | _ => true

/-- The recorded state of a step (PENDING when no entry exists). -/
def stateOf (w : WorkflowInstance) (sid : Nat) : StepState :=
  match w.step_states.find? (fun p => p.1 == sid) with
  | some p => p.2
  | none => .pending

/-- Whether the instance holds a state entry for the step id. -/
def hasEntry (w : WorkflowInstance) (sid : Nat) : Bool :=
  (w.step_states.find? (fun p => p.1 == sid)).isSome

/-- Overwrite the state recorded for a step id. -/
def setState (w : WorkflowInstance) (sid : Nat) (st : StepState) : WorkflowInstance :=
  { w with step_states := w.step_states.map (fun p =>
      if p.1 == sid then (p.1, st) else p) }

/-- Whether the step with the given id is marked `required`. -/
def requiredOf (w : WorkflowInstance) (sid : Nat) : Bool :=
  match w.steps.find? (fun s => s.step_id == sid) with
  | some s => s.required
  | none => false

/-- Whether the step with id `x` has a dependency that can never complete:
one that is SKIPPED, or FAILED while `required`. -/
def badDep (w : WorkflowInstance) (x : Nat) : Bool :=
  w.steps.any (fun s => s.step_id == x &&
    s.depends_on.any (fun d =>
      stateOf w d == .skipped || (stateOf w d == .failed && requiredOf w d)))

/-- One skip pass: every PENDING step one of whose dependencies can never
complete is marked SKIPPED. -/
def skipPass (w : WorkflowInstance) : WorkflowInstance :=
  { w with step_states := w.step_states.map (fun p =>
      if p.2 == StepState.pending && badDep w p.1 then (p.1, .skipped) else p) }

/-- Iterate `skipPass` to propagate skipping through dependency chains. -/
def iterSkip : Nat → WorkflowInstance → WorkflowInstance
  | 0, w => w
  | n + 1, w => iterSkip n (skipPass w)

/-- Whether no step is PENDING or RUNNING any more (no further progress
is possible). -/
def noActive (w : WorkflowInstance) : Bool :=
  w.step_states.all (fun p => p.2 != StepState.pending && p.2 != StepState.running)

/-- Whether every `required` step is COMPLETED. -/
def allRequiredCompleted (w : WorkflowInstance) : Bool :=
  w.steps.all (fun s => !s.required || stateOf w s.step_id == .completed)

/-- Modelled from the spec: when no further progress is possible the
instance reaches its terminal status — COMPLETED exactly when every
`required` step is COMPLETED, FAILED otherwise. -/
def finalizeInstance (w : WorkflowInstance) : WorkflowInstance :=
  if noActive w then
    { w with overall_status :=
        if allRequiredCompleted w then .completed else .failed }
  else w

/-- A step may start only when it is PENDING, exists in the definition,
and every dependency is COMPLETED. -/
def eligible (w : WorkflowInstance) (sid : Nat) : Bool :=
  stateOf w sid == .pending &&
    (match w.steps.find? (fun s => s.step_id == sid) with
     | some s => s.depends_on.all (fun d => stateOf w d == .completed)
     | none => false)

/-- Events driving a workflow instance: a step starts, resolves
successfully, or fails. -/
inductive WEvent where
  | start (sid : Nat)
  | finishOk (sid : Nat)
  | finishFail (sid : Nat)
  deriving Repr, DecidableEq

/-- Modelled from the spec: one orchestrator transition.  A terminal
instance is never mutated.  A failed `required` step marks its dependents
SKIPPED (propagated), and the instance is finalized whenever no further
progress is possible. -/
def applyEvent (w : WorkflowInstance) (e : WEvent) : WorkflowInstance :=
  if isTerminal w.overall_status then w
  else
    match e with
    | .start sid => if eligible w sid then setState w sid .running else w
    | .finishOk sid =>
        if stateOf w sid == .running then
          finalizeInstance (setState w sid .completed)
        else w
    | .finishFail sid =>
        if stateOf w sid == .running then
          let w1 := setState w sid .failed
          let w2 := if requiredOf w sid then iterSkip (w1.steps.length + 1) w1 else w1
          finalizeInstance w2
        else w

/-- The freshly created instance: every step PENDING, finalized at once
(an empty definition completes immediately). -/
def initInstance (steps : List WorkflowStep) : WorkflowInstance :=
  finalizeInstance
    { steps := steps
      step_states := steps.map (fun s => (s.step_id, .pending))
      overall_status := .running }

/-- Run the orchestrator over a list of events from a fresh instance. -/
def runWorkflow (steps : List WorkflowStep) (es : List WEvent) : WorkflowInstance :=
  es.foldl applyEvent (initInstance steps)

/-- The orchestrator's invariant: every step has a state entry; a
COMPLETED instance has every required step COMPLETED; a step that has
advanced (RUNNING, COMPLETED or FAILED) had all its dependencies
COMPLETED; the dependents of a FAILED required step are SKIPPED; and an
instance with no PENDING or RUNNING step left has reached COMPLETED or
FAILED. -/
def WfInv (w : WorkflowInstance) : Prop :=
  (∀ s ∈ w.steps, hasEntry w s.step_id = true) ∧
  (w.overall_status = .completed →
    ∀ s ∈ w.steps, s.required = true → stateOf w s.step_id = .completed) ∧
  (∀ s ∈ w.steps,
    (stateOf w s.step_id = .running ∨ stateOf w s.step_id = .completed ∨
      stateOf w s.step_id = .failed) →
    ∀ d ∈ s.depends_on, stateOf w d = .completed) ∧
  (∀ s ∈ w.steps, s.required = true → stateOf w s.step_id = .failed →
    ∀ t ∈ w.steps, s.step_id ∈ t.depends_on → stateOf w t.step_id = .skipped) ∧
  (noActive w = true →
    w.overall_status = .completed ∨ w.overall_status = .failed)

/-- Concrete backend response used as a witness input. -/
def sampleBackendStats : BackendDashboardStats :=
  { success := true
    total_patients := 0
    patients_served := 0
    queue_waiting := 3
    queue_in_progress := 0
    average_wait_time := 0 }

/-- The frontend record `getDashboardStats` produces for
`sampleBackendStats`. -/
def sampleDashboardStats : DashboardStats :=
  { queue_stats :=
      { total_waiting := 3
        total_in_progress := 0
        total_called := 0
        walk_ins_waiting := 2
        appointments_waiting := 0
        urgent_waiting := 0
        high_waiting := 0 }
    appointment_stats :=
      { total_today := 0
        checked_in_today := 0
        completed_today := 0
        check_in_rate := 0 } }

end OpsMesh

namespace OpsMesh

theorem floorScale_tenths (n k : Nat) : floorScale n ((k : ℚ)/10) = k * n / 10 := by
  unfold floorScale
  have h : (n : ℚ) * ((k : ℚ)/10) = ((k * n : Nat) : ℚ) / ((10 : Nat) : ℚ) := by
    push_cast; ring
  rw [h, Int.floor_toNat, Nat.floor_div_nat, Nat.floor_natCast]

theorem getDashboardStats_ok (r : BackendDashboardStats) (h : r.success = true) :
    getDashboardStats r = Except.ok
      { queue_stats :=
          { total_waiting := r.queue_waiting
            total_in_progress := r.queue_in_progress
            total_called := 0
            walk_ins_waiting := 7 * r.queue_waiting / 10
            appointments_waiting := 3 * r.queue_waiting / 10
            urgent_waiting := 1 * r.queue_waiting / 10
            high_waiting := 2 * r.queue_waiting / 10 }
        appointment_stats :=
          { total_today := r.total_patients
            checked_in_today := r.patients_served
            completed_today := r.patients_served
            check_in_rate :=
              if r.total_patients > 0 then
                round ((r.patients_served : ℚ) / (r.total_patients : ℚ) * 100)
              else 0 } } := by
  unfold getDashboardStats
  rw [h]
  simp only [Bool.not_true, Bool.false_eq_true, if_false]
  congr 1
  have h7 := floorScale_tenths r.queue_waiting 7
  have h3 := floorScale_tenths r.queue_waiting 3
  have h1 := floorScale_tenths r.queue_waiting 1
  have h2 := floorScale_tenths r.queue_waiting 2
  simp only [Nat.cast_ofNat, Nat.cast_one, one_div] at h7 h3 h1 h2
  simp [h7, h3, h1, h2]

theorem nat_div_add_div_le (a b c : Nat) : a / c + b / c ≤ (a + b) / c := by
  rcases Nat.eq_zero_or_pos c with hc | hc
  · subst hc; simp
  · rw [Nat.le_div_iff_mul_le hc, Nat.add_mul]
    exact Nat.add_le_add (Nat.div_mul_le_self a c) (Nat.div_mul_le_self b c)

/-- C7: the dashboard agent-network simulation always emits the same
fixed eight-message sequence (orchestrator→frontdesk, frontdesk→orchestrator,
orchestrator→queue, queue→orchestrator, orchestrator→appointment,
appointment→orchestrator, orchestrator→notification,
notification→orchestrator) with the same hardcoded texts, and each message
advances through sending, delivered, processing, completed purely on the
fixed timer delays 800 ms, 1200 ms and 1000 ms; the emitting function takes
no input, so the sequence is independent of any backend response or user
input. -/
theorem simulateWorkflow_spec :
    simulateWorkflowMessages.map (fun m => (m.msgFrom, m.msgTo)) =
      [("orchestrator", "frontdesk"), ("frontdesk", "orchestrator"),
       ("orchestrator", "queue"), ("queue", "orchestrator"),
       ("orchestrator", "appointment"), ("appointment", "orchestrator"),
       ("orchestrator", "notification"), ("notification", "orchestrator")] ∧
    simulateWorkflowMessages.map (fun m => m.message) =
      ["Register new patient: John Doe",
       "Patient registered successfully (ID: 12345)",
       "Add patient 12345 to queue with priority: medium",
       "Patient added to queue, estimated wait: 15 minutes",
       "Schedule follow-up appointment for patient 12345",
       "Appointment scheduled for tomorrow 2:00 PM",
       "Send confirmation to patient 12345",
       "Confirmation sent via SMS and email"] ∧
    simulateWorkflowMessages.map (fun m => m.type) =
      [.request, .response, .request, .response,
       .request, .response, .request, .response] ∧
    simDelaysMs = [800, 1200, 1000] ∧
    simStatusAt 0 = .sending ∧
    simStatusAt 800 = .delivered ∧
    simStatusAt (800 + 1200) = .processing ∧
    simStatusAt (800 + 1200 + 1000) = .completed ∧
    (∀ t, 800 + 1200 + 1000 ≤ t → simStatusAt t = .completed) := by
  refine ⟨by decide, by decide, by decide, by decide, by decide, by decide,
    by decide, by decide, ?_⟩
  intro t ht
  unfold simStatusAt
  have h1 : ¬ t < 800 := by omega
  have h2 : ¬ t < 800 + 1200 := by omega
  have h3 : ¬ t < 800 + 1200 + 1000 := by omega
  simp [h1, h2, h3]

/-- Witness for `simulateWorkflow_spec`: the status at the end of the
timer chain is `completed`. -/
theorem simulateWorkflow_spec_witness :
    simStatusAt 3000 = SimMsgStatus.completed :=
  simulateWorkflow_spec.2.2.2.2.2.2.2.2 3000 (by decide)

/-- C9: `validateAppointmentInput code last` returns `none` iff both `code`
and `last` are non-blank after trimming; when both are blank it returns the
combined prompt, when only `code` is blank the missing-code message, and
when only `last` is blank the missing-last-name message. -/
theorem validateAppointmentInput_spec (code last : String) :
    (validateAppointmentInput code last = none ↔
      (jsTrim code ≠ "" ∧ jsTrim last ≠ "")) ∧
    (jsTrim code = "" → jsTrim last = "" →
      validateAppointmentInput code last =
        some "Please enter your confirmation code and last name.") ∧
    (jsTrim code = "" → jsTrim last ≠ "" →
      validateAppointmentInput code last =
        some "Please enter your confirmation code.") ∧
    (jsTrim code ≠ "" → jsTrim last = "" →
      validateAppointmentInput code last =
        some "Please enter your last name.") := by
  unfold validateAppointmentInput
  by_cases hc : jsTrim code = "" <;> by_cases hl : jsTrim last = "" <;>
    simp [hc, hl]

/-- Witness for `validateAppointmentInput_spec` at concrete inputs. -/
theorem validateAppointmentInput_spec_witness :
    validateAppointmentInput " " "Doe" =
      some "Please enter your confirmation code." :=
  (validateAppointmentInput_spec " " "Doe").2.2.1 (by decide) (by decide)

/-- C10: on a successful backend response, `getDashboardStats` fabricates
the waiting breakdown as floored fixed fractions of `queue_waiting`
(0.7 / 0.3 / 0.1 / 0.2), so walk-ins + appointments never exceed the total
(strictly less for `queue_waiting = 3`), and `check_in_rate` is 0 when
`total_patients = 0` and `round (100 * served / total)` otherwise. -/
theorem getDashboardStats_spec (r : BackendDashboardStats) (s : DashboardStats)
    (h : getDashboardStats r = Except.ok s) :
    s.queue_stats.walk_ins_waiting = 7 * r.queue_waiting / 10 ∧
    s.queue_stats.appointments_waiting = 3 * r.queue_waiting / 10 ∧
    s.queue_stats.urgent_waiting = r.queue_waiting / 10 ∧
    s.queue_stats.high_waiting = 2 * r.queue_waiting / 10 ∧
    s.queue_stats.walk_ins_waiting + s.queue_stats.appointments_waiting ≤
      r.queue_waiting ∧
    (r.total_patients = 0 → s.appointment_stats.check_in_rate = 0) ∧
    (0 < r.total_patients → s.appointment_stats.check_in_rate =
      round ((100 * r.patients_served : ℚ) / (r.total_patients : ℚ))) ∧
    (∃ r₀ s₀, getDashboardStats r₀ = Except.ok s₀ ∧
      s₀.queue_stats.walk_ins_waiting + s₀.queue_stats.appointments_waiting <
        r₀.queue_waiting) := by
  have hs : r.success = true := by
    by_contra hns
    rw [Bool.not_eq_true] at hns
    unfold getDashboardStats at h
    rw [hns] at h
    simp at h
  have hok := getDashboardStats_ok r hs
  rw [hok] at h
  injection h with h
  subst h
  refine ⟨rfl, rfl, by simp, rfl, ?_, ?_, ?_, ?_⟩
  · have := nat_div_add_div_le (7 * r.queue_waiting) (3 * r.queue_waiting) 10
    calc 7 * r.queue_waiting / 10 + 3 * r.queue_waiting / 10
        ≤ (7 * r.queue_waiting + 3 * r.queue_waiting) / 10 := this
      _ = r.queue_waiting := by omega
  · intro h0; simp [h0]
  · intro hpos
    have : (0 : Nat) < r.total_patients := hpos
    simp only [gt_iff_lt, this, if_pos]
    congr 1
    field_simp
    ring
  · exact ⟨⟨true, 0, 0, 3, 0, 0⟩, _, getDashboardStats_ok ⟨true, 0, 0, 3, 0, 0⟩ rfl, by decide⟩

/-- Witness for `getDashboardStats_spec` at a concrete backend response
with `queue_waiting = 3` and `total_patients = 0`. -/
theorem getDashboardStats_spec_witness :
    sampleDashboardStats.queue_stats.walk_ins_waiting +
        sampleDashboardStats.queue_stats.appointments_waiting ≤
      sampleBackendStats.queue_waiting ∧
    sampleDashboardStats.appointment_stats.check_in_rate = 0 :=
  have h : getDashboardStats sampleBackendStats = Except.ok sampleDashboardStats := by
    rw [getDashboardStats_ok _ rfl]; rfl
  ⟨(getDashboardStats_spec _ _ h).2.2.2.2.1,
   (getDashboardStats_spec _ _ h).2.2.2.2.2.1 rfl⟩

theorem idleLE_iff (a b : AgentDescriptor) :
    idleLE a b = true ↔
      (statusRank a.status < statusRank b.status ∨
        (statusRank a.status = statusRank b.status ∧
          b.last_heartbeat ≤ a.last_heartbeat)) := by
  simp [idleLE, Bool.or_eq_true, Bool.and_eq_true, decide_eq_true_eq,
    beq_iff_eq]

theorem idleLE_trans (a b c : AgentDescriptor)
    (hab : idleLE a b = true) (hbc : idleLE b c = true) : idleLE a c = true := by
  rw [idleLE_iff] at hab hbc ⊢
  omega

theorem idleLE_total (a b : AgentDescriptor) :
    (idleLE a b || idleLE b a) = true := by
  rw [Bool.or_eq_true, idleLE_iff, idleLE_iff]
  omega

/-- C5: `find_by_capability` returns only ACTIVE agents declaring the
capability, ordered by the "most idle" key (status rank non-decreasing,
most-recent heartbeat first within equal rank); an UNREACHABLE agent is
never returned, and after a fresh heartbeat reporting ACTIVE the agent is
returned again. -/
theorem find_by_capability_spec (r : Registry) (cap : String) :
    (∀ a ∈ find_by_capability r cap,
        a.status = .active ∧ cap ∈ a.capabilities) ∧
    (find_by_capability r cap).Pairwise (fun a b =>
      statusRank a.status ≤ statusRank b.status ∧
        (statusRank a.status = statusRank b.status →
          b.last_heartbeat ≤ a.last_heartbeat)) ∧
    (∀ a ∈ r, a.status = .unreachable → a ∉ find_by_capability r cap) ∧
    (∀ id now r', heartbeat r id .active now = Except.ok r' →
      ∀ a ∈ r, a.agent_id = id → cap ∈ a.capabilities →
        ∃ a' ∈ find_by_capability r' cap,
          a'.agent_id = id ∧ a'.status = .active ∧ a'.last_heartbeat = now) := by
  refine ⟨?_, ?_, ?_, ?_⟩
  · intro a ha
    rw [find_by_capability, List.mem_mergeSort, List.mem_filter,
      Bool.and_eq_true, beq_iff_eq] at ha
    refine ⟨ha.2.2, ?_⟩
    have := ha.2.1
    simpa [List.elem_iff] using this
  · have hs := List.sorted_mergeSort idleLE_trans idleLE_total
      (r.filter (fun a => a.capabilities.contains cap && a.status == .active))
    refine List.Pairwise.imp ?_ hs
    intro a b h
    rw [idleLE_iff] at h
    omega
  · intro a _ hu hmem
    rw [find_by_capability, List.mem_mergeSort, List.mem_filter,
      Bool.and_eq_true, beq_iff_eq] at hmem
    rw [hu] at hmem
    exact absurd hmem.2.2 (by decide)
  · intro id now r' hok a ha hid hcap
    rw [heartbeat] at hok
    by_cases hpres : hasAgent r id
    · rw [if_pos hpres] at hok
      injection hok with hok
      subst hok
      refine ⟨{ a with status := .active, last_heartbeat := now }, ?_, hid, rfl, rfl⟩
      rw [find_by_capability, List.mem_mergeSort, List.mem_filter]
      refine ⟨?_, ?_⟩
      · rw [List.mem_map]
        exact ⟨a, ha, by rw [if_pos (by simp [hid])]⟩
      · simp [List.elem_iff, hcap]
    · rw [if_neg hpres] at hok
      exact absurd hok (by simp)

/-- Witness for `find_by_capability_spec`: an UNREACHABLE agent is not
returned for the capability it declares. -/
theorem find_by_capability_spec_witness :
    (⟨"queue", ["enqueue"], .unreachable, 0⟩ : AgentDescriptor) ∉
      find_by_capability [⟨"queue", ["enqueue"], .unreachable, 0⟩] "enqueue" :=
  (find_by_capability_spec [⟨"queue", ["enqueue"], .unreachable, 0⟩]
    "enqueue").2.2.1 _ (by decide) rfl

/-- C8: `deregister` is idempotent: applying it twice equals applying it
once, the agent is absent afterwards, and deregistering an absent agent
leaves the registry unchanged (and raises no error: `deregister` is
total). -/
theorem deregister_idempotent (r : Registry) (id : String) :
    deregister (deregister r id) id = deregister r id ∧
    hasAgent (deregister r id) id = false ∧
    (hasAgent r id = false → deregister r id = r) := by
  refine ⟨?_, ?_, ?_⟩
  · rw [deregister, deregister, List.filter_filter]
    simp
  · rw [hasAgent, deregister, List.any_eq_false]
    intro a ha
    rw [List.mem_filter] at ha
    simpa using ha.2
  · intro habs
    rw [hasAgent, List.any_eq_false] at habs
    rw [deregister, List.filter_eq_self]
    intro a ha
    simpa using habs a ha

/-- Witness for `deregister_idempotent`: deregistering an id absent from a
concrete registry leaves it unchanged. -/
theorem deregister_idempotent_witness :
    deregister [⟨"frontdesk", ["register_patient"], .active, 5⟩] "queue" =
      [⟨"frontdesk", ["register_patient"], .active, 5⟩] :=
  (deregister_idempotent [⟨"frontdesk", ["register_patient"], .active, 5⟩]
    "queue").2.2 (by decide)

theorem servedBefore_iff (a b : QueueEntry) :
    servedBefore a b = true ↔
      (priorityRank b.priority < priorityRank a.priority ∨
        (priorityRank a.priority = priorityRank b.priority ∧
          a.created_at < b.created_at)) := by
  simp [servedBefore, Bool.or_eq_true, Bool.and_eq_true, decide_eq_true_eq,
    beq_iff_eq]

theorem servedBefore_not_iff (a b : QueueEntry) :
    servedBefore a b = false ↔
      (priorityRank a.priority ≤ priorityRank b.priority ∧
        (priorityRank a.priority = priorityRank b.priority →
          b.created_at ≤ a.created_at)) := by
  rw [← Bool.not_eq_true, servedBefore_iff]
  omega

theorem selectNext_none_iff {l : List QueueEntry} :
    selectNext l = none ↔ l = [] := by
  cases l with
  | nil => simp [selectNext]
  | cons x rest =>
    simp only [selectNext, List.cons_ne_self, iff_false]
    rcases selectNext rest with _ | b
    · simp
    · by_cases hb : servedBefore b x = true <;> simp [hb]

theorem selectNext_cons_none {x : QueueEntry} {rest : List QueueEntry}
    (hr : selectNext rest = none) : selectNext (x :: rest) = some x := by
  rw [selectNext, hr]

theorem selectNext_cons_some {x b : QueueEntry} {rest : List QueueEntry}
    (hr : selectNext rest = some b) :
    selectNext (x :: rest) =
      if servedBefore b x = true then some b else some x := by
  rw [selectNext, hr]

theorem selectNext_mem : ∀ (l : List QueueEntry) (e : QueueEntry),
    selectNext l = some e → e ∈ l := by
  intro l
  induction l with
  | nil => intro e h; simp [selectNext] at h
  | cons x rest ih =>
    intro e h
    rcases hr : selectNext rest with _ | b
    · rw [selectNext_cons_none hr] at h
      injection h with h
      exact h ▸ List.mem_cons_self x rest
    · rw [selectNext_cons_some hr] at h
      by_cases hb : servedBefore b x = true
      · rw [if_pos hb] at h
        injection h with h
        exact List.mem_cons_of_mem x (ih e (h ▸ hr))
      · rw [if_neg hb] at h
        injection h with h
        exact h ▸ List.mem_cons_self x rest

theorem selectNext_best : ∀ (l : List QueueEntry) (e : QueueEntry),
    selectNext l = some e → ∀ x ∈ l, servedBefore x e = false := by
  intro l
  induction l with
  | nil => intro e h; simp [selectNext] at h
  | cons y rest ih =>
    intro e h x hx
    rcases List.mem_cons.mp hx with hxy | hxr
    · subst hxy
      rcases hr : selectNext rest with _ | b
      · rw [selectNext_cons_none hr] at h
        injection h with h
        subst h
        rw [servedBefore_not_iff]
        omega
      · rw [selectNext_cons_some hr] at h
        by_cases hb : servedBefore b x = true
        · rw [if_pos hb] at h
          injection h with h
          subst h
          rw [servedBefore_iff] at hb
          rw [servedBefore_not_iff]
          omega
        · rw [if_neg hb] at h
          injection h with h
          subst h
          rw [servedBefore_not_iff]
          omega
    · rcases hr : selectNext rest with _ | b
      · rw [selectNext_none_iff.mp hr] at hxr
        simp at hxr
      · have hxb := ih b hr x hxr
        rw [selectNext_cons_some hr] at h
        by_cases hb : servedBefore b y = true
        · rw [if_pos hb] at h
          injection h with h
          exact h ▸ hxb
        · rw [if_neg hb] at h
          injection h with h
          subst h
          rw [servedBefore_not_iff] at hxb ⊢
          rw [Bool.not_eq_true, servedBefore_not_iff] at hb
          omega

theorem call_next_of_selectNext_none {s : QueueState} {qt : QueueType}
    (hsel : selectNext (waitingOfType s qt) = none) :
    call_next s qt = (Except.error .emptyQueue, s) := by
  rw [call_next, hsel]

theorem call_next_of_selectNext_some {s : QueueState} {qt : QueueType}
    {e : QueueEntry} (hsel : selectNext (waitingOfType s qt) = some e) :
    call_next s qt =
      (Except.ok e,
        ⟨s.entries.map (fun x =>
          if x.ticket_number == e.ticket_number then { x with status := .called }
          else x)⟩) := by
  rw [call_next, hsel]

theorem waitingOfType_call_update (s : QueueState) (qt : QueueType)
    (tk : String) :
    ∀ x ∈ waitingOfType
        ⟨s.entries.map (fun y =>
          if y.ticket_number == tk then { y with status := QueueEntryStatus.called }
          else y)⟩ qt,
      x ∈ waitingOfType s qt := by
  intro x hx
  rw [waitingOfType, List.mem_filter] at hx ⊢
  obtain ⟨hmem, hcond⟩ := hx
  rw [List.mem_map] at hmem
  obtain ⟨y, hy, hxy⟩ := hmem
  by_cases ht : y.ticket_number == tk
  · rw [if_pos ht] at hxy
    rw [← hxy] at hcond
    simp at hcond
  · rw [if_neg ht] at hxy
    exact ⟨hxy ▸ hy, hcond⟩

theorem callSeq_succ_ok {s s' : QueueState} {qt : QueueType} {e : QueueEntry}
    {n : Nat} (h : call_next s qt = (Except.ok e, s')) :
    callSeq s qt (n + 1) = e :: callSeq s' qt n := by
  rw [callSeq, h]

theorem callSeq_succ_error {s s' : QueueState} {qt : QueueType}
    {err : QueueError} {n : Nat} (h : call_next s qt = (Except.error err, s')) :
    callSeq s qt (n + 1) = [] := by
  rw [callSeq, h]

theorem callSeq_mem : ∀ (n : Nat) (s : QueueState) (qt : QueueType)
    (x : QueueEntry), x ∈ callSeq s qt n → x ∈ waitingOfType s qt := by
  intro n
  induction n with
  | zero => intro s qt x hx; simp [callSeq] at hx
  | succ n ih =>
    intro s qt x hx
    rcases hsel : selectNext (waitingOfType s qt) with _ | e
    · rw [callSeq_succ_error (call_next_of_selectNext_none hsel)] at hx
      simp at hx
    · rw [callSeq_succ_ok (call_next_of_selectNext_some hsel)] at hx
      rcases List.mem_cons.mp hx with rfl | hx'
      · exact selectNext_mem _ _ hsel
      · exact waitingOfType_call_update s qt _ x (ih _ qt x hx')

/-- C3: starting from any sequence of `enqueue` calls mixing priorities,
repeated `call_next` calls on one queue type return entries in
non-increasing priority order, and in ascending creation-time order among
entries of equal priority. -/
theorem queue_priority_correctness (es : List QueueEntry) (qt : QueueType)
    (n : Nat) :
    (callSeq (enqueueAll es) qt n).Pairwise (fun a b =>
      priorityRank b.priority ≤ priorityRank a.priority ∧
        (priorityRank a.priority = priorityRank b.priority →
          a.created_at ≤ b.created_at)) := by
  suffices H : ∀ (m : Nat) (s : QueueState),
      (callSeq s qt m).Pairwise (fun a b =>
        priorityRank b.priority ≤ priorityRank a.priority ∧
          (priorityRank a.priority = priorityRank b.priority →
            a.created_at ≤ b.created_at)) from H n (enqueueAll es)
  intro m
  induction m with
  | zero => intro s; simp [callSeq]
  | succ m ih =>
    intro s
    rcases hsel : selectNext (waitingOfType s qt) with _ | e
    · rw [callSeq_succ_error (call_next_of_selectNext_none hsel)]
      exact List.Pairwise.nil
    · rw [callSeq_succ_ok (call_next_of_selectNext_some hsel)]
      refine List.Pairwise.cons ?_ (ih _)
      intro b hb
      have hbw : b ∈ waitingOfType s qt :=
        waitingOfType_call_update s qt _ b (callSeq_mem m _ qt b hb)
      have hbe := selectNext_best _ e hsel b hbw
      rw [servedBefore_not_iff] at hbe
      exact ⟨hbe.1, fun heq => hbe.2 heq.symm⟩

/-- C6: when the given queue type has no WAITING entry, `call_next` fails
with `EmptyQueue` and leaves the queue state unchanged; the frontend
caller (`QueueService.callPatient`) surfaces an error response
synchronously to its direct caller, with no retry path. -/
theorem call_next_emptyQueue_spec (s : QueueState) (qt : QueueType)
    (h : ∀ e ∈ s.entries, e.status = .waiting → e.queue_type ≠ qt) :
    call_next s qt = (Except.error .emptyQueue, s) ∧
    (∀ (resp : ApiResponse String) (err : String), resp.error = some err →
      callPatientHandle resp = Except.error err) := by
  constructor
  · have hempty : waitingOfType s qt = [] := by
      rw [waitingOfType, List.filter_eq_nil_iff]
      intro e he
      intro hc
      rw [Bool.and_eq_true, beq_iff_eq, beq_iff_eq] at hc
      exact h e he hc.1 hc.2
    exact call_next_of_selectNext_none (hempty ▸ rfl)
  · intro resp err he
    rw [callPatientHandle, he]

/-- Witness for `call_next_emptyQueue_spec`: a queue whose only entry of
the requested type is already CALLED yields `EmptyQueue` and an unchanged
state. -/
theorem call_next_emptyQueue_spec_witness :
    call_next ⟨[⟨"A001", .medium, .walk_in, .called, 0⟩]⟩ .walk_in =
      (Except.error .emptyQueue, ⟨[⟨"A001", .medium, .walk_in, .called, 0⟩]⟩) :=
  (call_next_emptyQueue_spec ⟨[⟨"A001", .medium, .walk_in, .called, 0⟩]⟩
    .walk_in (by decide)).1

theorem map_filter_comm {α β : Type} (l : List α) (f : α → β) (p : β → Bool) :
    (l.filter (fun x => p (f x))).map f = (l.map f).filter p := by
  induction l with
  | nil => rfl
  | cons x rest ih =>
    by_cases h : p (f x) = true
    · simp [List.filter_cons, h, ih]
    · simp [List.filter_cons, h, ih]

theorem pendingIds_resolvedState (s : EngineState) (id : Nat) (d : Delivered) :
    pendingIds (resolvedState s id d) = (pendingIds s).filter (fun x => x != id) := by
  unfold pendingIds resolvedState
  exact map_filter_comm s.pending (fun p => p.task_id) (fun x => x != id)

theorem deliveredIds_resolvedState (s : EngineState) (id : Nat) (d : Delivered) :
    deliveredIds (resolvedState s id d) = deliveredIds s ++ [d.task_id] := by
  unfold deliveredIds resolvedState
  simp

theorem find?_pending_of_nodup : ∀ (l : List PendingTask) (p : PendingTask),
    (l.map (fun q => q.task_id)).Nodup → p ∈ l →
    l.find? (fun q => q.task_id == p.task_id) = some p := by
  intro l
  induction l with
  | nil => intro p _ hp; simp at hp
  | cons q rest ih =>
    intro p hnd hp
    rw [List.map_cons, List.nodup_cons] at hnd
    by_cases h : (q.task_id == p.task_id) = true
    · have heq : q.task_id = p.task_id := beq_iff_eq.mp h
      rcases List.mem_cons.mp hp with hpq | hpr
      · subst hpq
        simp [List.find?_cons, h]
      · exfalso
        exact hnd.1 (heq ▸ (List.mem_map_of_mem (fun q => q.task_id) hpr))
    · have hne : q.task_id ≠ p.task_id := fun he => h (beq_iff_eq.mpr he)
      have hfalse : (q.task_id == p.task_id) = false :=
        Bool.eq_false_iff.mpr (fun hc => hne (beq_iff_eq.mp hc))
      rcases List.mem_cons.mp hp with hpq | hpr
      · exact absurd (hpq ▸ rfl) hne
      · simp only [List.find?_cons, hfalse]
        exact ih p hnd.2 hpr

theorem engStep_response_of_mem {s : EngineState} {id : Nat} (st : RespStatus)
    (hid : id ∈ pendingIds s) :
    engStep s (.response id st) = resolvedState s id ⟨id, st, none⟩ := by
  obtain ⟨p, hp, hpe⟩ := List.mem_map.mp hid
  have hany : s.pending.any (fun p => p.task_id == id) = true :=
    List.any_eq_true.mpr ⟨p, hp, beq_iff_eq.mpr hpe⟩
  simp only [engStep, hany, if_true]

theorem engStep_response_of_not_mem {s : EngineState} {id : Nat} (st : RespStatus)
    (hid : id ∉ pendingIds s) :
    engStep s (.response id st) = s := by
  have hany : s.pending.any (fun p => p.task_id == id) = false := by
    rw [List.any_eq_false]
    intro p hp hc
    exact hid (List.mem_map.mpr ⟨p, hp, beq_iff_eq.mp hc⟩)
  simp only [engStep, hany, Bool.false_eq_true, if_false]

theorem engStep_timeout_of_not_mem {s : EngineState} {id : Nat}
    (hid : id ∉ pendingIds s) :
    engStep s (.timeout id) = s := by
  have hf : s.pending.find? (fun p => p.task_id == id) = none := by
    rw [List.find?_eq_none]
    intro p hp hc
    exact hid (List.mem_map.mpr ⟨p, hp, beq_iff_eq.mp hc⟩)
  simp only [engStep, hf]

theorem engStep_timeout_of_retry {s : EngineState} {p : PendingTask}
    (hnd : (pendingIds s).Nodup) (hp : p ∈ s.pending)
    (hlt : p.retry_count < p.max_retries) :
    engStep s (.timeout p.task_id) =
      { s with pending := s.pending.map (fun q =>
          if q.task_id == p.task_id then { q with retry_count := q.retry_count + 1 }
          else q) } := by
  have hf := find?_pending_of_nodup s.pending p hnd hp
  simp only [engStep, hf, hlt, if_true]

theorem engStep_timeout_of_exhausted {s : EngineState} {p : PendingTask}
    (hnd : (pendingIds s).Nodup) (hp : p ∈ s.pending)
    (hge : ¬ p.retry_count < p.max_retries) :
    engStep s (.timeout p.task_id) =
      resolvedState s p.task_id ⟨p.task_id, .failure, some "exhausted_retries"⟩ := by
  have hf := find?_pending_of_nodup s.pending p hnd hp
  simp only [engStep, hf, hge, if_false]

theorem pendingIds_retry_map (s : EngineState) (id : Nat) :
    pendingIds { s with pending := s.pending.map (fun q =>
        if q.task_id == id then { q with retry_count := q.retry_count + 1 }
        else q) } = pendingIds s := by
  unfold pendingIds
  rw [List.map_map]
  apply List.map_congr_left
  intro q _
  simp only [Function.comp_apply]
  split <;> rfl

theorem engInv_init : EngineInv initEngine := by
  refine ⟨List.nodup_nil, List.nodup_nil, ?_, ?_⟩
  · intro id h
    simp [initEngine, pendingIds] at h
  · intro id
    simp [initEngine, pendingIds, deliveredIds]

theorem resolvedState_inv {s : EngineState} {id : Nat} {d : Delivered}
    (hd : d.task_id = id) (hid : id ∈ pendingIds s) (h : EngineInv s) :
    EngineInv (resolvedState s id d) := by
  obtain ⟨hnp, hnd, hdisj, hiff⟩ := h
  have hnotdel : id ∉ deliveredIds s := fun hdel => hdisj id ⟨hid, hdel⟩
  refine ⟨?_, ?_, ?_, ?_⟩
  · rw [pendingIds_resolvedState]
    exact hnp.filter _
  · rw [deliveredIds_resolvedState, hd]
    exact List.Nodup.append hnd (List.nodup_singleton id)
      (List.disjoint_singleton.mpr hnotdel)
  · intro x hx
    rw [pendingIds_resolvedState, List.mem_filter] at hx
    rw [deliveredIds_resolvedState, hd, List.mem_append, List.mem_singleton] at hx
    rcases hx.2 with hold | hxid
    · exact hdisj x ⟨hx.1.1, hold⟩
    · have hne := hx.1.2
      rw [hxid] at hne
      simp at hne
  · intro x
    rw [pendingIds_resolvedState, List.mem_filter,
      deliveredIds_resolvedState, hd, List.mem_append, List.mem_singleton]
    have hnext : (resolvedState s id d).next_id = s.next_id := rfl
    rw [hnext, ← hiff x]
    constructor
    · rintro (⟨hxp, _⟩ | hold | hxid)
      · exact Or.inl hxp
      · exact Or.inr hold
      · exact hxid ▸ Or.inl hid
    · rintro (hxp | hxd)
      · by_cases hxe : x = id
        · exact Or.inr (Or.inr hxe)
        · exact Or.inl ⟨hxp, by simp [hxe]⟩
      · exact Or.inr (Or.inl hxd)

theorem engInv_step {s : EngineState} (h : EngineInv s) (e : EngineEvent) :
    EngineInv (engStep s e) := by
  obtain ⟨hnp, hnd, hdisj, hiff⟩ := h
  cases e with
  | send mr =>
    have hfresh : s.next_id ∉ pendingIds s ∧ s.next_id ∉ deliveredIds s := by
      constructor <;> intro hmem
      · exact absurd ((hiff s.next_id).mp (Or.inl hmem)) (lt_irrefl _)
      · exact absurd ((hiff s.next_id).mp (Or.inr hmem)) (lt_irrefl _)
    have hpend : pendingIds (engStep s (.send mr)) = pendingIds s ++ [s.next_id] := by
      simp [engStep, pendingIds]
    have hdel : deliveredIds (engStep s (.send mr)) = deliveredIds s := rfl
    refine ⟨?_, ?_, ?_, ?_⟩
    · rw [hpend]
      exact List.Nodup.append hnp (List.nodup_singleton _)
        (List.disjoint_singleton.mpr hfresh.1)
    · rw [hdel]; exact hnd
    · intro x hx
      rw [hpend, List.mem_append, List.mem_singleton] at hx
      rw [hdel] at hx
      rcases hx.1 with hold | hxid
      · exact hdisj x ⟨hold, hx.2⟩
      · exact hfresh.2 (hxid ▸ hx.2)
    · intro x
      rw [hpend, hdel, List.mem_append, List.mem_singleton]
      have hn : (engStep s (.send mr)).next_id = s.next_id + 1 := rfl
      rw [hn]
      have := hiff x
      constructor
      · rintro ((hold | hxid) | hdold)
        · exact Nat.lt_succ_of_lt (this.mp (Or.inl hold))
        · omega
        · exact Nat.lt_succ_of_lt (this.mp (Or.inr hdold))
      · intro hlt
        rcases Nat.lt_succ_iff_lt_or_eq.mp hlt with hlt' | heq
        · rcases this.mpr hlt' with hp | hd
          · exact Or.inl (Or.inl hp)
          · exact Or.inr hd
        · exact Or.inl (Or.inr heq)
  | response id st =>
    by_cases hid : id ∈ pendingIds s
    · rw [engStep_response_of_mem st hid]
      exact resolvedState_inv rfl hid ⟨hnp, hnd, hdisj, hiff⟩
    · rw [engStep_response_of_not_mem st hid]
      exact ⟨hnp, hnd, hdisj, hiff⟩
  | timeout id =>
    by_cases hid : id ∈ pendingIds s
    · obtain ⟨p, hp, hpe⟩ := List.mem_map.mp hid
      subst hpe
      by_cases hlt : p.retry_count < p.max_retries
      · rw [engStep_timeout_of_retry hnp hp hlt]
        refine ⟨?_, hnd, ?_, ?_⟩
        · rw [pendingIds_retry_map]; exact hnp
        · intro x hx
          rw [pendingIds_retry_map] at hx
          exact hdisj x hx
        · intro x
          rw [pendingIds_retry_map]
          exact hiff x
      · rw [engStep_timeout_of_exhausted hnp hp hlt]
        exact resolvedState_inv rfl hid ⟨hnp, hnd, hdisj, hiff⟩
    · rw [engStep_timeout_of_not_mem hid]
      exact ⟨hnp, hnd, hdisj, hiff⟩

theorem engInv_runFrom {s : EngineState} (h : EngineInv s)
    (es : List EngineEvent) : EngineInv (runEngineFrom s es) := by
  induction es generalizing s with
  | nil => exact h
  | cons e rest ih => exact ih (engInv_step h e)

theorem engInv_run (es : List EngineEvent) : EngineInv (runEngine es) :=
  engInv_runFrom engInv_init es

theorem delivered_step_prefix (s : EngineState) (e : EngineEvent) :
    ∃ ts, (engStep s e).delivered = s.delivered ++ ts := by
  cases e with
  | send mr => exact ⟨[], by simp [engStep]⟩
  | response id st =>
    by_cases hid : id ∈ pendingIds s
    · exact ⟨[⟨id, st, none⟩], by rw [engStep_response_of_mem st hid]; rfl⟩
    · exact ⟨[], by rw [engStep_response_of_not_mem st hid]; simp⟩
  | timeout id =>
    rcases hf : s.pending.find? (fun p => p.task_id == id) with _ | t
    · refine ⟨[], ?_⟩
      simp only [engStep]
      rw [hf]
      simp
    · by_cases hlt : t.retry_count < t.max_retries
      · refine ⟨[], ?_⟩
        simp only [engStep]
        rw [hf]
        simp [hlt]
      · refine ⟨[⟨id, .failure, some "exhausted_retries"⟩], ?_⟩
        simp only [engStep]
        rw [hf]
        simp [hlt, resolvedState]

theorem delivered_runFrom_prefix (s : EngineState) (es : List EngineEvent) :
    ∃ ts, (runEngineFrom s es).delivered = s.delivered ++ ts := by
  induction es generalizing s with
  | nil => exact ⟨[], by simp [runEngineFrom]⟩
  | cons e rest ih =>
    obtain ⟨ts2, h2⟩ := ih (s := engStep s e)
    obtain ⟨ts1, h1⟩ := delivered_step_prefix s e
    refine ⟨ts1 ++ ts2, ?_⟩
    have : runEngineFrom s (e :: rest) = runEngineFrom (engStep s e) rest := rfl
    rw [this, h2, h1, List.append_assoc]

theorem countDelivered_eq_count (s : EngineState) (id : Nat) :
    countDelivered s id = (deliveredIds s).count id := by
  unfold countDelivered deliveredIds
  rw [List.count_eq_countP, List.countP_map, ← List.countP_eq_length_filter]
  rfl

theorem countDelivered_le_one {s : EngineState} (h : EngineInv s) (id : Nat) :
    countDelivered s id ≤ 1 := by
  rw [countDelivered_eq_count]
  exact List.nodup_iff_count_le_one.mp h.2.1 id

theorem countDelivered_zero_of_pending {s : EngineState} (h : EngineInv s)
    {id : Nat} (hid : id ∈ pendingIds s) : countDelivered s id = 0 := by
  rw [countDelivered_eq_count]
  exact List.count_eq_zero.mpr (fun hdel => h.2.2.1 id ⟨hid, hdel⟩)

theorem countDelivered_resolvedState (s : EngineState) (id : Nat)
    (d : Delivered) (hd : d.task_id = id) :
    countDelivered (resolvedState s id d) id = countDelivered s id + 1 := by
  unfold countDelivered resolvedState
  simp [List.filter_append, hd]

theorem countDelivered_stable {s : EngineState} (h : EngineInv s) {id : Nat}
    (hc : countDelivered s id = 1) (es : List EngineEvent) :
    countDelivered (runEngineFrom s es) id = 1 := by
  obtain ⟨ts, hts⟩ := delivered_runFrom_prefix s es
  have hle := countDelivered_le_one (engInv_runFrom h es) id
  have hsum : countDelivered (runEngineFrom s es) id =
      countDelivered s id + (ts.filter (fun d => d.task_id == id)).length := by
    unfold countDelivered
    rw [hts, List.filter_append, List.length_append]
  omega

theorem timeouts_exhaust : ∀ (k : Nat) (s : EngineState) (p : PendingTask),
    EngineInv s → p ∈ s.pending → p.max_retries - p.retry_count = k →
    countDelivered (runEngineFrom s
      (List.replicate (k + 1) (.timeout p.task_id))) p.task_id = 1 ∧
    (⟨p.task_id, .failure, some "exhausted_retries"⟩ : Delivered) ∈
      (runEngineFrom s (List.replicate (k + 1) (.timeout p.task_id))).delivered := by
  intro k
  induction k with
  | zero =>
    intro s p hinv hp hk
    have hge : ¬ p.retry_count < p.max_retries := by omega
    have hstep := engStep_timeout_of_exhausted hinv.1 hp hge
    have hrun : runEngineFrom s (List.replicate 1 (EngineEvent.timeout p.task_id)) =
        engStep s (.timeout p.task_id) := rfl
    rw [hrun, hstep]
    constructor
    · rw [countDelivered_resolvedState s p.task_id
          ⟨p.task_id, .failure, some "exhausted_retries"⟩ rfl,
        countDelivered_zero_of_pending hinv
          (List.mem_map_of_mem (fun q => q.task_id) hp)]
    · simp [resolvedState]
  | succ k ih =>
    intro s p hinv hp hk
    have hlt : p.retry_count < p.max_retries := by omega
    have hstep := engStep_timeout_of_retry hinv.1 hp hlt
    have hrun : runEngineFrom s
        (List.replicate (k + 1 + 1) (EngineEvent.timeout p.task_id)) =
        runEngineFrom (engStep s (.timeout p.task_id))
          (List.replicate (k + 1) (EngineEvent.timeout p.task_id)) := by
      rw [List.replicate_succ]
      rfl
    have hp1 : ({ p with retry_count := p.retry_count + 1 } : PendingTask) ∈
        (engStep s (.timeout p.task_id)).pending := by
      rw [hstep]
      exact List.mem_map.mpr ⟨p, hp, by simp⟩
    have hinv1 : EngineInv (engStep s (.timeout p.task_id)) :=
      engInv_step hinv _
    have hk1 : ({ p with retry_count := p.retry_count + 1 } : PendingTask).max_retries -
        ({ p with retry_count := p.retry_count + 1 } : PendingTask).retry_count = k := by
      simp
      omega
    have := ih (engStep s (.timeout p.task_id))
      { p with retry_count := p.retry_count + 1 } hinv1 hp1 hk1
    rw [hrun]
    exact this

/-- C1: for every trace of engine events, task ids generated by
`send_task` are never shared by two outstanding requests, each id receives
at most one resolution even under duplicate or late responses, no id is
both outstanding and resolved, every id ever minted is either still
outstanding or resolved (a resolution is never lost), an outstanding task
is resolved exactly once by its remaining timeouts, and a resolved id
keeps exactly one resolution under any continuation of the trace. -/
theorem task_exactly_once (es : List EngineEvent) :
    (pendingIds (runEngine es)).Nodup ∧
    (∀ id, countDelivered (runEngine es) id ≤ 1) ∧
    (∀ id, ¬(id ∈ pendingIds (runEngine es) ∧ id ∈ deliveredIds (runEngine es))) ∧
    (∀ id, (id ∈ pendingIds (runEngine es) ∨ id ∈ deliveredIds (runEngine es)) ↔
      id < (runEngine es).next_id) ∧
    (∀ p ∈ (runEngine es).pending,
      countDelivered (runEngineFrom (runEngine es)
        (List.replicate (p.max_retries - p.retry_count + 1)
          (EngineEvent.timeout p.task_id))) p.task_id = 1) ∧
    (∀ (id : Nat) (es2 : List EngineEvent),
      countDelivered (runEngine es) id = 1 →
      countDelivered (runEngineFrom (runEngine es) es2) id = 1) := by
  have hinv := engInv_run es
  refine ⟨hinv.1, countDelivered_le_one hinv, hinv.2.2.1, hinv.2.2.2, ?_, ?_⟩
  · intro p hp
    exact (timeouts_exhaust _ _ p hinv hp rfl).1
  · intro id es2 hc
    exact countDelivered_stable hinv hc es2

/-- Witness for `task_exactly_once`: a freshly sent task with zero allowed
retries is resolved exactly once by a single timeout. -/
theorem task_exactly_once_witness :
    countDelivered (runEngineFrom (runEngine [EngineEvent.send 0])
      (List.replicate 1 (EngineEvent.timeout 0))) 0 = 1 :=
  (task_exactly_once [EngineEvent.send 0]).2.2.2.2.1 ⟨0, 0, 0⟩ (by decide)

/-- C2: a timed-out request with retries remaining is resent under the
same `task_id` with its retry count incremented and nothing delivered; the
first response for an outstanding id resolves the caller exactly once,
removes the id from the outstanding set, and any later response for that
id leaves the engine unchanged (dropped); exhausting all retries delivers
exactly one final FAILURE tagged `exhausted_retries`. -/
theorem retry_semantics (es : List EngineEvent) (p : PendingTask)
    (hp : p ∈ (runEngine es).pending) :
    (p.retry_count < p.max_retries →
      ({ p with retry_count := p.retry_count + 1 } : PendingTask) ∈
        (engStep (runEngine es) (.timeout p.task_id)).pending ∧
      (engStep (runEngine es) (.timeout p.task_id)).delivered =
        (runEngine es).delivered) ∧
    (∀ st : RespStatus,
      (engStep (runEngine es) (.response p.task_id st)).delivered =
        (runEngine es).delivered ++ [⟨p.task_id, st, none⟩] ∧
      p.task_id ∉ pendingIds (engStep (runEngine es) (.response p.task_id st)) ∧
      countDelivered (engStep (runEngine es) (.response p.task_id st))
        p.task_id = 1 ∧
      (∀ st' : RespStatus,
        engStep (engStep (runEngine es) (.response p.task_id st))
          (.response p.task_id st') =
        engStep (runEngine es) (.response p.task_id st))) ∧
    (countDelivered (runEngineFrom (runEngine es)
        (List.replicate (p.max_retries - p.retry_count + 1)
          (EngineEvent.timeout p.task_id))) p.task_id = 1 ∧
      (⟨p.task_id, .failure, some "exhausted_retries"⟩ : Delivered) ∈
        (runEngineFrom (runEngine es)
          (List.replicate (p.max_retries - p.retry_count + 1)
            (EngineEvent.timeout p.task_id))).delivered) := by
  have hinv := engInv_run es
  have hid : p.task_id ∈ pendingIds (runEngine es) :=
    List.mem_map_of_mem (fun q => q.task_id) hp
  refine ⟨?_, ?_, ?_⟩
  · intro hlt
    rw [engStep_timeout_of_retry hinv.1 hp hlt]
    exact ⟨List.mem_map.mpr ⟨p, hp, by simp⟩, rfl⟩
  · intro st
    have hresp := engStep_response_of_mem st hid
    have hnot : p.task_id ∉
        pendingIds (engStep (runEngine es) (.response p.task_id st)) := by
      rw [hresp, pendingIds_resolvedState, List.mem_filter]
      rintro ⟨_, hne⟩
      simp at hne
    refine ⟨by rw [hresp]; rfl, hnot, ?_, ?_⟩
    · rw [hresp, countDelivered_resolvedState (runEngine es) p.task_id
        ⟨p.task_id, st, none⟩ rfl, countDelivered_zero_of_pending hinv hid]
    · intro st'
      exact engStep_response_of_not_mem st' hnot
  · exact timeouts_exhaust _ _ p hinv hp rfl

/-- Witness for `retry_semantics`: after one send with one allowed retry,
a timeout resends under task id 0, and two timeouts deliver exactly one
exhausted-retries failure. -/
theorem retry_semantics_witness :
    ({ task_id := 0, retry_count := 1, max_retries := 1 } : PendingTask) ∈
      (engStep (runEngine [EngineEvent.send 1]) (.timeout 0)).pending ∧
    countDelivered (runEngineFrom (runEngine [EngineEvent.send 1])
      (List.replicate 2 (EngineEvent.timeout 0))) 0 = 1 :=
  ⟨((retry_semantics [EngineEvent.send 1] ⟨0, 0, 1⟩ (by decide)).1 (by decide)).1,
   (retry_semantics [EngineEvent.send 1] ⟨0, 0, 1⟩ (by decide)).2.2.1⟩

theorem find?_map_keyPres (l : List (Nat × StepState))
    (f : Nat × StepState → Nat × StepState) (hf : ∀ p, (f p).1 = p.1) (x : Nat) :
    (l.map f).find? (fun p => p.1 == x) = (l.find? (fun p => p.1 == x)).map f := by
  induction l with
  | nil => rfl
  | cons q rest ih =>
    rw [List.map_cons]
    simp only [List.find?_cons, hf q]
    by_cases h : (q.1 == x) = true
    · simp [h]
    · have h' : (q.1 == x) = false := Bool.eq_false_iff.mpr h
      simp [h', ih]

theorem setState_keyPres (sid : Nat) (st : StepState) :
    ∀ p : Nat × StepState, ((fun p => if p.1 == sid then (p.1, st) else p) p).1 = p.1 := by
  intro p
  by_cases h : (p.1 == sid) = true <;> simp [h]

theorem skipPass_keyPres (w : WorkflowInstance) :
    ∀ p : Nat × StepState,
      ((fun p => if p.2 == StepState.pending && badDep w p.1 then (p.1, StepState.skipped) else p) p).1 = p.1 := by
  intro p
  by_cases h : (p.2 == StepState.pending && badDep w p.1) = true <;> simp [h]

theorem stateOf_setState_ne {w : WorkflowInstance} {sid x : Nat}
    {st : StepState} (hne : x ≠ sid) :
    stateOf (setState w sid st) x = stateOf w x := by
  unfold stateOf setState
  rw [find?_map_keyPres _ _ (setState_keyPres sid st)]
  rcases hq : w.step_states.find? (fun p => p.1 == x) with _ | q
  · rw [hq]; rfl
  · rw [hq]
    have hqx : (q.1 == x) = true := by simpa using List.find?_some hq
    have hq1 : q.1 = x := beq_iff_eq.mp hqx
    simp [hq1, hne]

theorem stateOf_setState_self {w : WorkflowInstance} {sid : Nat}
    {st : StepState} (hs : hasEntry w sid = true) :
    stateOf (setState w sid st) sid = st := by
  unfold hasEntry at hs
  rcases hq : w.step_states.find? (fun p => p.1 == sid) with _ | q
  · rw [hq] at hs; simp at hs
  · unfold stateOf setState
    rw [find?_map_keyPres _ _ (setState_keyPres sid st), hq]
    have hq1 : q.1 = sid := by
      have := List.find?_some hq
      simpa using this
    simp [hq1]

theorem stateOf_setState_absent {w : WorkflowInstance} {sid x : Nat}
    {st : StepState} (hs : hasEntry w sid = false) :
    stateOf (setState w sid st) x = stateOf w x := by
  by_cases hx : x = sid
  · subst hx
    unfold hasEntry at hs
    rcases hq : w.step_states.find? (fun p => p.1 == x) with _ | q
    · unfold stateOf setState
      rw [find?_map_keyPres _ _ (setState_keyPres x st), hq]
      rfl
    · rw [hq] at hs
      simp at hs
  · exact stateOf_setState_ne hx

theorem hasEntry_setState (w : WorkflowInstance) (sid x : Nat) (st : StepState) :
    hasEntry (setState w sid st) x = hasEntry w x := by
  unfold hasEntry setState
  rw [find?_map_keyPres _ _ (setState_keyPres sid st)]
  rcases hq : w.step_states.find? (fun p => p.1 == x) with _ | q <;> rw [hq] <;> rfl

theorem stateOf_ne_pending_hasEntry {w : WorkflowInstance} {x : Nat}
    (h : stateOf w x ≠ .pending) : hasEntry w x = true := by
  unfold stateOf at h
  unfold hasEntry
  rcases hq : w.step_states.find? (fun p => p.1 == x) with _ | q
  · rw [hq] at h; simp at h
  · rw [hq]; rfl

theorem stateOf_skipPass_ne_pending {w : WorkflowInstance} {x : Nat}
    (h : stateOf w x ≠ .pending) :
    stateOf (skipPass w) x = stateOf w x := by
  unfold stateOf at h ⊢
  unfold skipPass
  rw [find?_map_keyPres _ _ (skipPass_keyPres w)]
  rcases hq : w.step_states.find? (fun p => p.1 == x) with _ | q
  · rw [hq]; rfl
  · rw [hq] at h ⊢
    have hne2 : q.2 ≠ StepState.pending := h
    simp [hne2]

theorem stateOf_skipPass_or (w : WorkflowInstance) (x : Nat) :
    stateOf (skipPass w) x = stateOf w x ∨ stateOf (skipPass w) x = .skipped := by
  unfold stateOf skipPass
  rw [find?_map_keyPres _ _ (skipPass_keyPres w)]
  rcases hq : w.step_states.find? (fun p => p.1 == x) with _ | q
  · rw [hq]; exact Or.inl rfl
  · rw [hq]
    by_cases hc : (q.2 == StepState.pending) = true ∧ (badDep w q.1) = true
    · refine Or.inr ?_
      have h2 : q.2 = StepState.pending := beq_iff_eq.mp hc.1
      simp [h2, hc.2]
    · refine Or.inl ?_
      rcases Decidable.not_and_iff_or_not.mp hc with hcl | hcr
      · have h2 : q.2 ≠ StepState.pending := fun he => hcl (beq_iff_eq.mpr he)
        simp [h2]
      · have h2 : badDep w q.1 = false := Bool.eq_false_iff.mpr hcr
        simp [h2]

theorem stateOf_skipPass_skip {w : WorkflowInstance} {x : Nat}
    (hp : stateOf w x = .pending) (hb : badDep w x = true)
    (he : hasEntry w x = true) :
    stateOf (skipPass w) x = .skipped := by
  unfold hasEntry at he
  rcases hq : w.step_states.find? (fun p => p.1 == x) with _ | q
  · rw [hq] at he; simp at he
  · have hqx : q.1 = x := by
      have := List.find?_some hq
      simpa using this
    have hq2 : q.2 = .pending := by
      unfold stateOf at hp
      rw [hq] at hp
      exact hp
    unfold stateOf skipPass
    rw [find?_map_keyPres _ _ (skipPass_keyPres w), hq]
    simp [hq2, hqx, hb]

theorem hasEntry_skipPass (w : WorkflowInstance) (x : Nat) :
    hasEntry (skipPass w) x = hasEntry w x := by
  unfold hasEntry skipPass
  rw [find?_map_keyPres _ _ (skipPass_keyPres w)]
  rcases hq : w.step_states.find? (fun p => p.1 == x) with _ | q <;> rw [hq] <;> rfl

theorem steps_iterSkip : ∀ (n : Nat) (w : WorkflowInstance),
    (iterSkip n w).steps = w.steps := by
  intro n
  induction n with
  | zero => intro w; rfl
  | succ n ih => intro w; exact ih (skipPass w)

theorem overall_iterSkip : ∀ (n : Nat) (w : WorkflowInstance),
    (iterSkip n w).overall_status = w.overall_status := by
  intro n
  induction n with
  | zero => intro w; rfl
  | succ n ih => intro w; exact ih (skipPass w)

theorem hasEntry_iterSkip : ∀ (n : Nat) (w : WorkflowInstance) (x : Nat),
    hasEntry (iterSkip n w) x = hasEntry w x := by
  intro n
  induction n with
  | zero => intro w x; rfl
  | succ n ih =>
    intro w x
    rw [iterSkip, ih, hasEntry_skipPass]

theorem stateOf_iterSkip_ne_pending : ∀ (n : Nat) (w : WorkflowInstance)
    (x : Nat), stateOf w x ≠ .pending →
    stateOf (iterSkip n w) x = stateOf w x := by
  intro n
  induction n with
  | zero => intro w x _; rfl
  | succ n ih =>
    intro w x h
    rw [iterSkip, ih _ _ (by rw [stateOf_skipPass_ne_pending h]; exact h),
      stateOf_skipPass_ne_pending h]

theorem stateOf_iterSkip_or : ∀ (n : Nat) (w : WorkflowInstance) (x : Nat),
    stateOf (iterSkip n w) x = stateOf w x ∨
      stateOf (iterSkip n w) x = .skipped := by
  intro n
  induction n with
  | zero => intro w x; exact Or.inl rfl
  | succ n ih =>
    intro w x
    rw [iterSkip]
    rcases ih (skipPass w) x with h | h
    · rw [h]
      exact stateOf_skipPass_or w x
    · exact Or.inr h

theorem stateOf_finalize (w : WorkflowInstance) (x : Nat) :
    stateOf (finalizeInstance w) x = stateOf w x := by
  unfold finalizeInstance
  split <;> rfl

theorem steps_finalize (w : WorkflowInstance) :
    (finalizeInstance w).steps = w.steps := by
  unfold finalizeInstance
  split <;> rfl

theorem hasEntry_finalize (w : WorkflowInstance) (x : Nat) :
    hasEntry (finalizeInstance w) x = hasEntry w x := by
  unfold finalizeInstance
  split <;> rfl

theorem noActive_finalize (w : WorkflowInstance) :
    noActive (finalizeInstance w) = noActive w := by
  unfold finalizeInstance
  split <;> rfl

theorem overall_finalize (w : WorkflowInstance) :
    (finalizeInstance w).overall_status = w.overall_status ∨
      (noActive w = true ∧ (finalizeInstance w).overall_status =
        (if allRequiredCompleted w then OverallStatus.completed else .failed)) := by
  unfold finalizeInstance
  split
  · rename_i h
    exact Or.inr ⟨h, rfl⟩
  · exact Or.inl rfl

theorem overall_finalize_noActive {w : WorkflowInstance}
    (h : noActive w = true) :
    (finalizeInstance w).overall_status =
      (if allRequiredCompleted w then OverallStatus.completed else .failed) := by
  unfold finalizeInstance
  rw [if_pos h]

theorem overall_finalize_active {w : WorkflowInstance}
    (h : noActive w = false) :
    (finalizeInstance w).overall_status = w.overall_status := by
  unfold finalizeInstance
  rw [if_neg (by simp [h])]

theorem overall_setState (w : WorkflowInstance) (sid : Nat) (st : StepState) :
    (setState w sid st).overall_status = w.overall_status := rfl

theorem noActive_setState_running {w : WorkflowInstance} {sid : Nat}
    (h : noActive (setState w sid .running) = true) : noActive w = true := by
  unfold noActive at h ⊢
  rw [List.all_eq_true] at h ⊢
  intro p hp
  have hmem : (if p.1 == sid then (p.1, StepState.running) else p) ∈
      (setState w sid .running).step_states :=
    List.mem_map_of_mem _ hp
  have := h _ hmem
  by_cases hc : (p.1 == sid) = true
  · rw [if_pos hc] at this
    simp at this
  · rw [if_neg hc] at this
    exact this

theorem allRequired_spec {w : WorkflowInstance}
    (h : allRequiredCompleted w = true) :
    ∀ s ∈ w.steps, s.required = true → stateOf w s.step_id = .completed := by
  unfold allRequiredCompleted at h
  rw [List.all_eq_true] at h
  intro s hs hr
  have := h s hs
  rw [hr] at this
  simpa using this

theorem find?_step_of_nodup : ∀ (l : List WorkflowStep) (s : WorkflowStep),
    (l.map (fun t => t.step_id)).Nodup → s ∈ l →
    l.find? (fun t => t.step_id == s.step_id) = some s := by
  intro l
  induction l with
  | nil => intro s _ hs; simp at hs
  | cons q rest ih =>
    intro s hnd hs
    rw [List.map_cons, List.nodup_cons] at hnd
    by_cases h : (q.step_id == s.step_id) = true
    · have heq : q.step_id = s.step_id := beq_iff_eq.mp h
      rcases List.mem_cons.mp hs with hsq | hsr
      · subst hsq
        simp [List.find?_cons, h]
      · exfalso
        exact hnd.1 (heq ▸ (List.mem_map_of_mem (fun t => t.step_id) hsr))
    · have hfalse : (q.step_id == s.step_id) = false := Bool.eq_false_iff.mpr h
      rcases List.mem_cons.mp hs with hsq | hsr
      · subst hsq
        exact absurd (by simp) h
      · simp only [List.find?_cons, hfalse]
        exact ih s hnd.2 hsr

theorem requiredOf_of_nodup {w : WorkflowInstance} {s : WorkflowStep}
    (hnd : (w.steps.map (fun t => t.step_id)).Nodup) (hs : s ∈ w.steps) :
    requiredOf w s.step_id = s.required := by
  unfold requiredOf
  rw [find?_step_of_nodup w.steps s hnd hs]

theorem eligible_pending {w : WorkflowInstance} {sid : Nat}
    (h : eligible w sid = true) : stateOf w sid = .pending := by
  unfold eligible at h
  rw [Bool.and_eq_true] at h
  exact beq_iff_eq.mp h.1

theorem eligible_deps {w : WorkflowInstance} {sid : Nat} {s : WorkflowStep}
    (hnd : (w.steps.map (fun t => t.step_id)).Nodup) (hs : s ∈ w.steps)
    (heq : s.step_id = sid) (h : eligible w sid = true) :
    ∀ d ∈ s.depends_on, stateOf w d = .completed := by
  unfold eligible at h
  rw [Bool.and_eq_true] at h
  have hf := find?_step_of_nodup w.steps s hnd hs
  rw [heq] at hf
  rw [hf] at h
  intro d hd
  exact beq_iff_eq.mp (List.all_eq_true.mp h.2 d hd)

theorem isTerminal_false {o : OverallStatus} (h : isTerminal o = false) :
    o = .running := by
  cases o <;> first | rfl | simp [isTerminal] at h

theorem B_skipPass {v : WorkflowInstance}
    (hB : ∀ s ∈ v.steps,
      (stateOf v s.step_id = .running ∨ stateOf v s.step_id = .completed ∨
        stateOf v s.step_id = .failed) →
      ∀ d ∈ s.depends_on, stateOf v d = .completed) :
    ∀ s ∈ (skipPass v).steps,
      (stateOf (skipPass v) s.step_id = .running ∨
        stateOf (skipPass v) s.step_id = .completed ∨
        stateOf (skipPass v) s.step_id = .failed) →
      ∀ d ∈ s.depends_on, stateOf (skipPass v) d = .completed := by
  intro s hs hadv d hd
  have hsteps : (skipPass v).steps = v.steps := rfl
  rw [hsteps] at hs
  rcases stateOf_skipPass_or v s.step_id with hst | hst
  · rw [hst] at hadv
    have hdc := hB s hs hadv d hd
    rw [stateOf_skipPass_ne_pending (by rw [hdc]; exact (by decide))]
    exact hdc
  · rw [hst] at hadv
    rcases hadv with hx | hx | hx <;> exact absurd hx (by decide)

theorem B_iterSkip : ∀ (n : Nat) (v : WorkflowInstance),
    (∀ s ∈ v.steps,
      (stateOf v s.step_id = .running ∨ stateOf v s.step_id = .completed ∨
        stateOf v s.step_id = .failed) →
      ∀ d ∈ s.depends_on, stateOf v d = .completed) →
    ∀ s ∈ (iterSkip n v).steps,
      (stateOf (iterSkip n v) s.step_id = .running ∨
        stateOf (iterSkip n v) s.step_id = .completed ∨
        stateOf (iterSkip n v) s.step_id = .failed) →
      ∀ d ∈ s.depends_on, stateOf (iterSkip n v) d = .completed := by
  intro n
  induction n with
  | zero => intro v hB; exact hB
  | succ n ih =>
    intro v hB
    exact ih (skipPass v) (B_skipPass hB)

theorem finalize_A {v : WorkflowInstance} :
    (finalizeInstance v).overall_status = .completed →
    v.overall_status = .running →
    ∀ s ∈ v.steps, s.required = true →
      stateOf (finalizeInstance v) s.step_id = .completed := by
  intro hov hrun s hs hreq
  rw [stateOf_finalize]
  by_cases hna : noActive v = true
  · rw [overall_finalize_noActive hna] at hov
    by_cases harc : allRequiredCompleted v = true
    · exact allRequired_spec harc s hs hreq
    · rw [if_neg (by simp [harc])] at hov
      exact absurd hov (by decide)
  · rw [overall_finalize_active (Bool.eq_false_iff.mpr hna), hrun] at hov
    exact absurd hov (by decide)

theorem finalize_E {v : WorkflowInstance} :
    noActive (finalizeInstance v) = true →
    (finalizeInstance v).overall_status = .completed ∨
      (finalizeInstance v).overall_status = .failed := by
  intro hna
  rw [noActive_finalize] at hna
  rw [overall_finalize_noActive hna]
  by_cases harc : allRequiredCompleted v = true
  · rw [if_pos harc]
    exact Or.inl rfl
  · rw [if_neg (by simp [harc])]
    exact Or.inr rfl

theorem B_setState_fail {w : WorkflowInstance} {sid : Nat}
    (hrun_s : stateOf w sid = .running)
    (hB : ∀ s ∈ w.steps,
      (stateOf w s.step_id = .running ∨ stateOf w s.step_id = .completed ∨
        stateOf w s.step_id = .failed) →
      ∀ d ∈ s.depends_on, stateOf w d = .completed)
    (st : StepState) :
    ∀ s ∈ w.steps,
      (stateOf (setState w sid st) s.step_id = .running ∨
        stateOf (setState w sid st) s.step_id = .completed ∨
        stateOf (setState w sid st) s.step_id = .failed) →
      ∀ d ∈ s.depends_on, stateOf (setState w sid st) d = .completed := by
  intro s hs hadv d hd
  by_cases hsx : s.step_id = sid
  · have hdeps := hB s hs (Or.inl (hsx ▸ hrun_s)) d hd
    by_cases hdx : d = sid
    · rw [hdx, hrun_s] at hdeps
      exact absurd hdeps (by decide)
    · rw [stateOf_setState_ne hdx]
      exact hdeps
  · rw [stateOf_setState_ne hsx] at hadv
    have hdeps := hB s hs hadv d hd
    by_cases hdx : d = sid
    · rw [hdx, hrun_s] at hdeps
      exact absurd hdeps (by decide)
    · rw [stateOf_setState_ne hdx]
      exact hdeps

theorem wfInv_fail_required {w : WorkflowInstance} {sid : Nat} (n : Nat)
    (hS : ∀ s ∈ w.steps, hasEntry w s.step_id = true)
    (hB : ∀ s ∈ w.steps,
      (stateOf w s.step_id = .running ∨ stateOf w s.step_id = .completed ∨
        stateOf w s.step_id = .failed) →
      ∀ d ∈ s.depends_on, stateOf w d = .completed)
    (hC : ∀ s ∈ w.steps, s.required = true → stateOf w s.step_id = .failed →
      ∀ t ∈ w.steps, s.step_id ∈ t.depends_on → stateOf w t.step_id = .skipped)
    (hov : w.overall_status = .running)
    (hrun_s : stateOf w sid = .running)
    (hreqd : requiredOf w sid = true) :
    WfInv (finalizeInstance (iterSkip (n + 1) (setState w sid .failed))) := by
  have hent : hasEntry w sid = true :=
    stateOf_ne_pending_hasEntry (by rw [hrun_s]; exact (by decide))
  have hfail1 : stateOf (setState w sid .failed) sid = .failed :=
    stateOf_setState_self hent
  have hB1 := B_setState_fail hrun_s hB StepState.failed
  have hsteps2 : (iterSkip (n + 1) (setState w sid .failed)).steps = w.steps :=
    steps_iterSkip (n + 1) _
  -- dependents of the failed step are PENDING or SKIPPED right after the failure
  have hPS : ∀ t ∈ w.steps, sid ∈ t.depends_on →
      stateOf (setState w sid .failed) t.step_id = .pending ∨
      stateOf (setState w sid .failed) t.step_id = .skipped := by
    intro t ht htd
    rcases hst : stateOf (setState w sid .failed) t.step_id with _ | _ | _ | _ | _
    · exact Or.inl rfl
    · exfalso
      have := hB1 t ht (Or.inl hst) sid htd
      rw [hfail1] at this
      exact absurd this (by decide)
    · exfalso
      have := hB1 t ht (Or.inr (Or.inl hst)) sid htd
      rw [hfail1] at this
      exact absurd this (by decide)
    · exfalso
      have := hB1 t ht (Or.inr (Or.inr hst)) sid htd
      rw [hfail1] at this
      exact absurd this (by decide)
    · exact Or.inr rfl
  -- after the skip passes every dependent is SKIPPED
  have hskipped : ∀ t ∈ w.steps, sid ∈ t.depends_on →
      stateOf (iterSkip (n + 1) (setState w sid .failed)) t.step_id = .skipped := by
    intro t ht htd
    rcases hPS t ht htd with hp | hsk
    · have hbad : badDep (setState w sid .failed) t.step_id = true := by
        unfold badDep
        rw [List.any_eq_true]
        refine ⟨t, ht, ?_⟩
        rw [Bool.and_eq_true]
        refine ⟨by simp, ?_⟩
        rw [List.any_eq_true]
        refine ⟨sid, htd, ?_⟩
        rw [Bool.or_eq_true]
        right
        rw [Bool.and_eq_true]
        exact ⟨by simp [hfail1], hreqd⟩
      have hone : stateOf (skipPass (setState w sid .failed)) t.step_id = .skipped :=
        stateOf_skipPass_skip hp hbad
          (by rw [hasEntry_setState]; exact hS t ht)
      rw [iterSkip,
        stateOf_iterSkip_ne_pending n _ _ (by rw [hone]; exact (by decide)), hone]
    · rw [stateOf_iterSkip_ne_pending (n + 1) _ _
        (by rw [hsk]; exact (by decide)), hsk]
  refine ⟨?_, ?_, ?_, ?_, finalize_E⟩
  · intro s hs
    rw [steps_finalize, hsteps2] at hs
    rw [hasEntry_finalize, hasEntry_iterSkip, hasEntry_setState]
    exact hS s hs
  · intro hovc s hs hreq
    rw [steps_finalize, hsteps2] at hs
    exact finalize_A hovc (by rw [overall_iterSkip, overall_setState]; exact hov)
      s (by rw [hsteps2]; exact hs) hreq
  · intro s hs hadv d hd
    rw [steps_finalize, hsteps2] at hs
    rw [stateOf_finalize] at hadv ⊢
    exact B_iterSkip (n + 1) _ hB1 s (by rw [hsteps2]; exact hs) hadv d hd
  · intro s hs hreq hfail t ht htdep
    rw [steps_finalize, hsteps2] at hs ht
    rw [stateOf_finalize] at hfail ⊢
    rcases stateOf_iterSkip_or (n + 1) (setState w sid .failed) s.step_id
      with heq | hskipped2
    · rw [heq] at hfail
      by_cases hsx : s.step_id = sid
      · rw [hsx] at htdep
        exact hskipped t ht htdep
      · rw [stateOf_setState_ne hsx] at hfail
        have hsk := hC s hs hreq hfail t ht htdep
        have htx : t.step_id ≠ sid := by
          intro hc
          rw [hc, hrun_s] at hsk
          exact absurd hsk (by decide)
        have h1 : stateOf (setState w sid .failed) t.step_id = .skipped := by
          rw [stateOf_setState_ne htx]
          exact hsk
        rw [stateOf_iterSkip_ne_pending (n + 1) _ _
          (by rw [h1]; exact (by decide)), h1]
    · rw [hskipped2] at hfail
      exact absurd hfail (by decide)

theorem wfInv_fail_optional {w : WorkflowInstance} {sid : Nat}
    (hnd : (w.steps.map (fun t => t.step_id)).Nodup)
    (hS : ∀ s ∈ w.steps, hasEntry w s.step_id = true)
    (hB : ∀ s ∈ w.steps,
      (stateOf w s.step_id = .running ∨ stateOf w s.step_id = .completed ∨
        stateOf w s.step_id = .failed) →
      ∀ d ∈ s.depends_on, stateOf w d = .completed)
    (hC : ∀ s ∈ w.steps, s.required = true → stateOf w s.step_id = .failed →
      ∀ t ∈ w.steps, s.step_id ∈ t.depends_on → stateOf w t.step_id = .skipped)
    (hov : w.overall_status = .running)
    (hrun_s : stateOf w sid = .running)
    (hreqd : requiredOf w sid = false) :
    WfInv (finalizeInstance (setState w sid .failed)) := by
  have hB1 := B_setState_fail hrun_s hB StepState.failed
  refine ⟨?_, ?_, ?_, ?_, finalize_E⟩
  · intro s hs
    rw [steps_finalize] at hs
    rw [hasEntry_finalize, hasEntry_setState]
    exact hS s hs
  · intro hovc s hs hreq
    rw [steps_finalize] at hs
    exact finalize_A hovc (by rw [overall_setState]; exact hov) s hs hreq
  · intro s hs hadv d hd
    rw [steps_finalize] at hs
    rw [stateOf_finalize] at hadv ⊢
    exact hB1 s hs hadv d hd
  · intro s hs hreq hfail t ht htdep
    rw [steps_finalize] at hs ht
    rw [stateOf_finalize] at hfail ⊢
    by_cases hsx : s.step_id = sid
    · exfalso
      have hro := requiredOf_of_nodup hnd hs
      rw [hsx, hreqd] at hro
      rw [hreq] at hro
      exact absurd hro (by decide)
    · rw [stateOf_setState_ne hsx] at hfail
      have hsk := hC s hs hreq hfail t ht htdep
      have htx : t.step_id ≠ sid := by
        intro hc
        rw [hc, hrun_s] at hsk
        exact absurd hsk (by decide)
      rw [stateOf_setState_ne htx]
      exact hsk

theorem wfInv_step {w : WorkflowInstance}
    (hnd : (w.steps.map (fun t => t.step_id)).Nodup)
    (h : WfInv w) (e : WEvent) : WfInv (applyEvent w e) := by
  obtain ⟨hS, hA, hB, hC, hE⟩ := h
  by_cases hterm : isTerminal w.overall_status = true
  · rw [applyEvent.eq_def, if_pos hterm]
    exact ⟨hS, hA, hB, hC, hE⟩
  · have hov : w.overall_status = .running :=
      isTerminal_false (Bool.eq_false_iff.mpr hterm)
    rw [applyEvent.eq_def, if_neg hterm]
    cases e with
    | start sid =>
      dsimp only
      by_cases hel : eligible w sid = true
      · rw [if_pos hel]
        refine ⟨?_, ?_, ?_, ?_, ?_⟩
        · intro s hs
          rw [hasEntry_setState]
          exact hS s hs
        · intro hovc
          rw [overall_setState, hov] at hovc
          exact absurd hovc (by decide)
        · intro s hs hadv d hd
          by_cases hsx : s.step_id = sid
          · have hdeps := eligible_deps hnd hs hsx hel d hd
            have hdne : d ≠ sid := by
              intro hc
              rw [hc, eligible_pending hel] at hdeps
              exact absurd hdeps (by decide)
            rw [stateOf_setState_ne hdne]
            exact hdeps
          · rw [stateOf_setState_ne hsx] at hadv
            have hdeps := hB s hs hadv d hd
            by_cases hdx : d = sid
            · rw [hdx, eligible_pending hel] at hdeps
              exact absurd hdeps (by decide)
            · rw [stateOf_setState_ne hdx]
              exact hdeps
        · intro s hs hreq hfail t ht htdep
          by_cases hsx : s.step_id = sid
          · exfalso
            by_cases hent : hasEntry w sid = true
            · rw [hsx, stateOf_setState_self hent] at hfail
              exact absurd hfail (by decide)
            · rw [hsx, stateOf_setState_absent (Bool.eq_false_iff.mpr hent),
                eligible_pending hel] at hfail
              exact absurd hfail (by decide)
          · rw [stateOf_setState_ne hsx] at hfail
            have hsk := hC s hs hreq hfail t ht htdep
            by_cases htx : t.step_id = sid
            · rw [htx, eligible_pending hel] at hsk
              exact absurd hsk (by decide)
            · rw [stateOf_setState_ne htx]
              exact hsk
        · intro hna
          have hnaw := noActive_setState_running hna
          rcases hE hnaw with hc | hc <;> rw [hov] at hc <;>
            exact absurd hc (by decide)
      · rw [if_neg hel]
        exact ⟨hS, hA, hB, hC, hE⟩
    | finishOk sid =>
      dsimp only
      by_cases hRun : (stateOf w sid == StepState.running) = true
      · rw [if_pos hRun]
        have hrun_s : stateOf w sid = .running := beq_iff_eq.mp hRun
        have hent : hasEntry w sid = true :=
          stateOf_ne_pending_hasEntry (by rw [hrun_s]; exact (by decide))
        refine ⟨?_, ?_, ?_, ?_, finalize_E⟩
        · intro s hs
          rw [steps_finalize] at hs
          rw [hasEntry_finalize, hasEntry_setState]
          exact hS s hs
        · intro hovc s hs hreq
          rw [steps_finalize] at hs
          exact finalize_A hovc (by rw [overall_setState]; exact hov) s hs hreq
        · intro s hs hadv d hd
          rw [steps_finalize] at hs
          rw [stateOf_finalize] at hadv ⊢
          by_cases hsx : s.step_id = sid
          · have hdeps := hB s hs (Or.inl (hsx ▸ hrun_s)) d hd
            by_cases hdx : d = sid
            · rw [hdx, stateOf_setState_self hent]
            · rw [stateOf_setState_ne hdx]
              exact hdeps
          · rw [stateOf_setState_ne hsx] at hadv
            have hdeps := hB s hs hadv d hd
            by_cases hdx : d = sid
            · rw [hdx, stateOf_setState_self hent]
            · rw [stateOf_setState_ne hdx]
              exact hdeps
        · intro s hs hreq hfail t ht htdep
          rw [steps_finalize] at hs ht
          rw [stateOf_finalize] at hfail ⊢
          by_cases hsx : s.step_id = sid
          · rw [hsx, stateOf_setState_self hent] at hfail
            exact absurd hfail (by decide)
          · rw [stateOf_setState_ne hsx] at hfail
            have hsk := hC s hs hreq hfail t ht htdep
            by_cases htx : t.step_id = sid
            · rw [htx, hrun_s] at hsk
              exact absurd hsk (by decide)
            · rw [stateOf_setState_ne htx]
              exact hsk
      · rw [if_neg hRun]
        exact ⟨hS, hA, hB, hC, hE⟩
    | finishFail sid =>
      dsimp only
      by_cases hRun : (stateOf w sid == StepState.running) = true
      · rw [if_pos hRun]
        have hrun_s : stateOf w sid = .running := beq_iff_eq.mp hRun
        by_cases hreqd : requiredOf w sid = true
        · have hgoal := wfInv_fail_required
            (setState w sid .failed).steps.length hS hB hC hov hrun_s hreqd
          simpa [hreqd] using hgoal
        · have hgoal := wfInv_fail_optional hnd hS hB hC hov hrun_s
            (Bool.eq_false_iff.mpr hreqd)
          simpa [Bool.eq_false_iff.mpr hreqd] using hgoal
      · rw [if_neg hRun]
        exact ⟨hS, hA, hB, hC, hE⟩

theorem steps_applyEvent (w : WorkflowInstance) (e : WEvent) :
    (applyEvent w e).steps = w.steps := by
  by_cases hterm : isTerminal w.overall_status = true
  · rw [applyEvent.eq_def, if_pos hterm]
  · rw [applyEvent.eq_def, if_neg hterm]
    cases e with
    | start sid =>
      dsimp only
      by_cases hel : eligible w sid = true
      · rw [if_pos hel]
        rfl
      · rw [if_neg hel]
    | finishOk sid =>
      dsimp only
      by_cases hRun : (stateOf w sid == StepState.running) = true
      · rw [if_pos hRun, steps_finalize]
        rfl
      · rw [if_neg hRun]
    | finishFail sid =>
      dsimp only
      by_cases hRun : (stateOf w sid == StepState.running) = true
      · rw [if_pos hRun]
        by_cases hreqd : requiredOf w sid = true
        · simp only [hreqd, if_true]
          rw [steps_finalize, steps_iterSkip]
          rfl
        · simp only [hreqd, Bool.false_eq_true, if_false]
          rw [steps_finalize]
          rfl
      · rw [if_neg hRun]

theorem stateOf_initBase (steps : List WorkflowStep) (x : Nat) :
    stateOf ⟨steps, steps.map (fun s => (s.step_id, StepState.pending)),
      .running⟩ x = .pending := by
  unfold stateOf
  dsimp only
  rcases hq : (steps.map (fun s => (s.step_id, StepState.pending))).find?
      (fun p => p.1 == x) with _ | q
  · rw [hq]
  · rw [hq]
    have hmem := List.mem_of_find?_eq_some hq
    rw [List.mem_map] at hmem
    obtain ⟨s, _, hqe⟩ := hmem
    rw [← hqe]

theorem hasEntry_initBase (steps : List WorkflowStep) :
    ∀ s ∈ steps, hasEntry ⟨steps,
      steps.map (fun s => (s.step_id, StepState.pending)), .running⟩
      s.step_id = true := by
  intro s hs
  unfold hasEntry
  dsimp only
  rw [List.find?_isSome]
  exact ⟨(s.step_id, .pending), List.mem_map_of_mem _ hs, by simp⟩

theorem wfInv_init (steps : List WorkflowStep) : WfInv (initInstance steps) := by
  unfold initInstance
  refine ⟨?_, ?_, ?_, ?_, finalize_E⟩
  · intro s hs
    rw [steps_finalize] at hs
    rw [hasEntry_finalize]
    exact hasEntry_initBase steps s hs
  · intro hovc s hs hreq
    rw [steps_finalize] at hs
    exact finalize_A hovc rfl s hs hreq
  · intro s hs hadv d hd
    rw [stateOf_finalize, stateOf_initBase] at hadv
    rcases hadv with hx | hx | hx <;> exact absurd hx (by decide)
  · intro s hs hreq hfail t ht htdep
    rw [stateOf_finalize, stateOf_initBase] at hfail
    exact absurd hfail (by decide)

theorem wfInv_runAux : ∀ (es : List WEvent) (w : WorkflowInstance),
    (w.steps.map (fun t => t.step_id)).Nodup → WfInv w →
    WfInv (es.foldl applyEvent w) ∧ (es.foldl applyEvent w).steps = w.steps := by
  intro es
  induction es with
  | nil => intro w _ h; exact ⟨h, rfl⟩
  | cons e rest ih =>
    intro w hnd h
    have hsteps := steps_applyEvent w e
    have hrec := ih (applyEvent w e) (by rw [hsteps]; exact hnd)
      (wfInv_step hnd h e)
    refine ⟨hrec.1, ?_⟩
    rw [List.foldl_cons, hrec.2, hsteps]

/-- C4: for every workflow definition with distinct step ids and every
event trace, the reached instance satisfies: `overall_status` is COMPLETED
only if every `required` step is COMPLETED; the dependents of a FAILED
`required` step are SKIPPED; once a required step has failed and no step
is PENDING or RUNNING any more the instance is FAILED; and a terminal
instance is never mutated by any further event. -/
theorem workflow_terminal_spec (steps : List WorkflowStep) (es : List WEvent)
    (hnd : (steps.map (fun t => t.step_id)).Nodup) :
    ((runWorkflow steps es).overall_status = .completed →
      ∀ s ∈ (runWorkflow steps es).steps, s.required = true →
        stateOf (runWorkflow steps es) s.step_id = .completed) ∧
    (∀ s ∈ (runWorkflow steps es).steps, s.required = true →
      stateOf (runWorkflow steps es) s.step_id = .failed →
      ∀ t ∈ (runWorkflow steps es).steps, s.step_id ∈ t.depends_on →
        stateOf (runWorkflow steps es) t.step_id = .skipped) ∧
    (∀ s ∈ (runWorkflow steps es).steps, s.required = true →
      stateOf (runWorkflow steps es) s.step_id = .failed →
      noActive (runWorkflow steps es) = true →
      (runWorkflow steps es).overall_status = .failed) ∧
    (isTerminal (runWorkflow steps es).overall_status = true →
      ∀ e, applyEvent (runWorkflow steps es) e = runWorkflow steps es) := by
  unfold runWorkflow
  have hndb : ((initInstance steps).steps.map (fun t => t.step_id)).Nodup := by
    show (((finalizeInstance _).steps).map (fun t => t.step_id)).Nodup
    rw [steps_finalize]
    exact hnd
  obtain ⟨hInv, _⟩ := wfInv_runAux es (initInstance steps) hndb (wfInv_init steps)
  obtain ⟨hS, hA, hB, hC, hE⟩ := hInv
  refine ⟨hA, hC, ?_, ?_⟩
  · intro s hs hreq hfail hna
    rcases hE hna with hcomp | hfl
    · exfalso
      have hcc := hA hcomp s hs hreq
      rw [hcc] at hfail
      exact absurd hfail (by decide)
    · exact hfl
  · intro hterm e
    rw [applyEvent.eq_def, if_pos hterm]

/-- Witness for `workflow_terminal_spec`: a two-step workflow whose
required first step fails leaves the dependent second step SKIPPED, and
the FAILED instance ignores further events. -/
theorem workflow_terminal_spec_witness :
    stateOf (runWorkflow [⟨0, [], true⟩, ⟨1, [0], true⟩]
      [WEvent.start 0, WEvent.finishFail 0]) 1 = StepState.skipped ∧
    applyEvent (runWorkflow [⟨0, [], true⟩, ⟨1, [0], true⟩]
        [WEvent.start 0, WEvent.finishFail 0]) (WEvent.start 1) =
      runWorkflow [⟨0, [], true⟩, ⟨1, [0], true⟩]
        [WEvent.start 0, WEvent.finishFail 0] :=
  ⟨(workflow_terminal_spec [⟨0, [], true⟩, ⟨1, [0], true⟩]
      [WEvent.start 0, WEvent.finishFail 0] (by decide)).2.1
      ⟨0, [], true⟩ (by decide) rfl (by decide)
      ⟨1, [0], true⟩ (by decide) (by decide),
   (workflow_terminal_spec [⟨0, [], true⟩, ⟨1, [0], true⟩]
      [WEvent.start 0, WEvent.finishFail 0] (by decide)).2.2.2
      (by decide) (WEvent.start 1)⟩

end OpsMesh
